import Mathlib

/-!
# Verification of ddshow's dataflow analysis core

A shallow embedding in Lean 4 of the parts of the `ddshow` analyzer that the
specification talks about:

* `src/dataflow/subgraphs.rs` — the channel rewiring pass (`subgraph_normal`,
  `subgraph_ingress`);
* `src/dataflow/worker_timeline.rs` — the span correlator (`EventProcessor`)
  and the `worker_timeline` dataflow;
* `src/dataflow/timely_source.rs` — the timely event extractor
  (`extract_timely_info`);
* `src/dataflow/operators/replay_with_shutdown.rs` — the framed event reader
  (`EventReader::next`) and the replay driver's shutdown/drain logic;
* `src/dataflow/mod.rs` — `dataflow_stats`.

Machine integers (`usize`, `u64`) are modelled as `Nat`; `std::time::Duration`
is modelled as a count of nanoseconds (`Nat`), with its partial subtraction
(which panics in Rust on underflow) modelled by an `Option`-valued checked
subtraction.  Differential-dataflow collections are modelled as lists of
records; arrangements used as semijoin/antijoin arguments are modelled as
lists standing for their key sets.
-/

namespace DDShow

/-- Nanosecond timestamps: the model of `std::time::Duration`. -/
abbrev Time := Nat

abbrev WorkerId := Nat
abbrev OperatorId := Nat
abbrev ChannelId := Nat

/-- `OperatorAddr`: a path of scope-local indices from the root scope. -/
abbrev OperatorAddr := List Nat

/-- Rust `Duration` subtraction: panics (here `none`) when `b > a`. -/
def checkedSub (a b : Nat) : Option Nat :=
  if b ≤ a then some (a - b) else none

/-- `timely::logging::ChannelsEvent`: a raw channel record.  `source` and
`target` are `(node, port)` pairs, scoped to `scope_addr`. -/
structure ChannelsEvent where
  id : ChannelId
  scope_addr : OperatorAddr
  source : Nat × Nat
  target : Nat × Nat
  deriving DecidableEq, Repr

/-- The derived `Channel` entity emitted by the rewiring pass. -/
inductive Channel where
  | Normal (channel_id : ChannelId) (source_addr target_addr : OperatorAddr)
  | ScopeIngress (channel_id : ChannelId) (source_addr target_addr : OperatorAddr)
  | ScopeEgress (channel_id : ChannelId) (source_addr target_addr : OperatorAddr)
  deriving DecidableEq, Repr

/-- `subgraph_normal` from `src/dataflow/subgraphs.rs`: keep channels whose
endpoint *node* indices are both nonzero, qualify both endpoints with the
scope address, antijoin each qualified endpoint address against the subgraph
set, and emit `Channel::Normal`. -/
def subgraph_normal (channels : List ChannelsEvent) (subgraphs : List OperatorAddr) :
    List Channel :=
  ((((channels.filterMap fun channel =>
        if channel.source.1 ≠ 0 ∧ channel.target.1 ≠ 0 then
          some (channel.scope_addr ++ [channel.source.1],
            (channel.id, channel.scope_addr ++ [channel.target.1]))
        else none).filter
      fun x => ¬ subgraphs.contains x.1).map
      fun x => (x.2.2, (x.2.1, x.1))).filter
      fun x => ¬ subgraphs.contains x.1).map
    fun x => Channel.Normal x.2.1 x.2.2 x.1

/-! ## Subgraph ingress propagation (`subgraph_ingress`) -/

/-- A channel endpoint: fully-qualified operator address plus port. -/
abbrev Endpoint := OperatorAddr × Nat

/-- A propagation link `(source, (target, id path))` as built by
`subgraph_ingress`'s initial `map`. -/
abbrev Link := Endpoint × (Endpoint × List ChannelId)

/-- The initial link collection of `subgraph_ingress`: each raw channel
becomes `((scope_addr ++ [source.0], source.1), ((scope_addr ++ [target.0],
target.1), [id]))`. -/
def channel_links (channels : List ChannelsEvent) : List Link :=
  channels.map fun channel =>
    ((channel.scope_addr ++ [channel.source.1], channel.source.2),
      ((channel.scope_addr ++ [channel.target.1], channel.target.2), [channel.id]))

/-- One round of the `iterate` body in `subgraph_ingress`: synthesize ingress
candidates `((target ++ [0], port), (source, path))` from every link, join
them against the raw links keyed by their target (`channels_reverse`), append
the original links and deduplicate (`distinct_core`). -/
def ingress_step (base links : List Link) : List Link :=
  let ingress_candidates : List Link :=
    links.map fun l => ((l.2.1.1 ++ [0], l.2.1.2), (l.1, l.2.2))
  let joined := base.flatMap fun b =>
    ingress_candidates.filterMap fun c =>
      if c.1 = b.2.1 then
        if b.2.2 ≠ c.2.2 then some (c.2.1, (b.1, c.2.2 ++ b.2.2)) else none
      else none
  (joined ++ links).dedup

/-- Fuel-bounded iteration of `ingress_step` to a fixed point, modelling
differential dataflow's `iterate`. -/
def ingress_iterate (base : List Link) : Nat → List Link → List Link
  | 0, links => links
  | fuel + 1, links =>
    let next := ingress_step base links
    if next = links then links else ingress_iterate base fuel next

/-- Combining step for `path_len_max`: a candidate `e` beats the running
maximum only when its path is strictly longer (so among equals the later
element wins, as with Rust's `max_by_key`). -/
def path_len_pick (e : Endpoint × List ChannelId) :
    Option (Endpoint × List ChannelId) → Option (Endpoint × List ChannelId)
  | none => some e
  | some m => if m.2.length < e.2.length then some e else some m

/-- Rust's `Iterator::max_by_key` on the path length (returns the *last*
maximal element). -/
def path_len_max : List (Endpoint × List ChannelId) → Option (Endpoint × List ChannelId)
  | [] => none
  | e :: rest => path_len_pick e (path_len_max rest)

/-- The body of the `reduce` in `subgraph_ingress`, for one `source` key:
among the accumulated `(target, path)` values keep those with `path.len() >=
2`, pick the one with the longest path, and emit `ScopeIngress { channel_id =
path[0], source_addr, target_addr }`. -/
def ingress_reduce_at (links : List Link) (source : Endpoint) : Option Channel :=
  let entries := (links.filter fun l => l.1 = source).map (·.2)
  match path_len_max (entries.filter fun e => 2 ≤ e.2.length) with
  | some (target, path) => some (Channel.ScopeIngress (path.headD 0) source.1 target.1)
  | none => none

/-- The `reduce` of `subgraph_ingress` over every source key. -/
def ingress_reduce (links : List Link) : List Channel :=
  ((links.map (·.1)).dedup).filterMap (ingress_reduce_at links)

/-- `subgraph_ingress` from `src/dataflow/subgraphs.rs`: propagate the links
to a fixed point, then reduce per source.  `fuel` bounds the iteration,
modelling differential's fixed-point `iterate`. -/
def subgraph_ingress (channels : List ChannelsEvent) (fuel : Nat) : List Channel :=
  ingress_reduce (ingress_iterate (channel_links channels) fuel (channel_links channels))

theorem path_len_max_isSome {l : List (Endpoint × List ChannelId)} (h : l ≠ []) :
    ∃ m, path_len_max l = some m := by
  cases l with
  | nil => exact absurd rfl h
  | cons e rest =>
    rw [path_len_max]
    cases path_len_max rest with
    | none => exact ⟨e, rfl⟩
    | some m' =>
      rw [path_len_pick]
      by_cases hc : m'.2.length < e.2.length
      · exact ⟨e, by rw [if_pos hc]⟩
      · exact ⟨m', by rw [if_neg hc]⟩

theorem path_len_max_mem {l : List (Endpoint × List ChannelId)}
    {m : Endpoint × List ChannelId} (h : path_len_max l = some m) : m ∈ l := by
  induction l with
  | nil => simp [path_len_max] at h
  | cons e rest ih =>
    rw [path_len_max] at h
    cases hr : path_len_max rest with
    | none =>
      rw [hr, path_len_pick] at h
      exact (Option.some.inj h) ▸ List.mem_cons_self ..
    | some m' =>
      rw [hr, path_len_pick] at h
      by_cases hc : m'.2.length < e.2.length
      · rw [if_pos hc] at h
        exact (Option.some.inj h) ▸ List.mem_cons_self ..
      · rw [if_neg hc] at h
        exact List.mem_cons_of_mem _ (ih (hr.trans (congrArg some (Option.some.inj h))))

theorem path_len_max_le {l : List (Endpoint × List ChannelId)} :
    ∀ {m : Endpoint × List ChannelId}, path_len_max l = some m →
      ∀ e ∈ l, e.2.length ≤ m.2.length := by
  induction l with
  | nil => simp
  | cons e rest ih =>
    intro m h x hx
    rw [path_len_max] at h
    rcases List.mem_cons.1 hx with rfl | hx'
    · cases hr : path_len_max rest with
      | none =>
        rw [hr, path_len_pick] at h
        rw [← Option.some.inj h]
      | some m' =>
        rw [hr, path_len_pick] at h
        by_cases hc : m'.2.length < x.2.length
        · rw [if_pos hc] at h
          rw [← Option.some.inj h]
        · rw [if_neg hc] at h
          rw [← Option.some.inj h]; omega
    · cases hr : path_len_max rest with
      | none =>
        exfalso
        obtain ⟨m'', hm''⟩ := path_len_max_isSome (List.ne_nil_of_mem hx')
        rw [hm''] at hr
        exact Option.noConfusion hr
      | some m' =>
        rw [hr, path_len_pick] at h
        have hle := ih hr x hx'
        by_cases hc : m'.2.length < e.2.length
        · rw [if_pos hc] at h
          rw [← Option.some.inj h]; omega
        · rw [if_neg hc] at h
          rw [← Option.some.inj h]; exact hle

/-- **C8.**  At a fixed point of the ingress propagation, every source
endpoint that has accumulated at least one path of length ≥ 2 gives rise to
exactly one `ScopeIngress` channel (the reducer emits `some` for that source
key): its target is the target of a longest accumulated path from that
source, and its `channel_id` is the first channel id along that path. -/
theorem subgraph_ingress_deepest (channels : List ChannelsEvent)
    (links : List Link) (source : Endpoint)
    (_hfix : ingress_step (channel_links channels) links = links)
    (hsome : ∃ e ∈ links, e.1 = source ∧ 2 ≤ e.2.2.length) :
    ∃ target path,
      (source, (target, path)) ∈ links ∧ 2 ≤ path.length ∧
      (∀ e ∈ links, e.1 = source → e.2.2.length ≤ path.length) ∧
      ingress_reduce_at links source =
        some (Channel.ScopeIngress (path.headD 0) source.1 target.1) ∧
      Channel.ScopeIngress (path.headD 0) source.1 target.1 ∈ ingress_reduce links := by
  obtain ⟨e, he, heSrc, heLen⟩ := hsome
  have heEntries : e.2 ∈ (links.filter fun l => l.1 = source).map (·.2) :=
    List.mem_map.2 ⟨e, List.mem_filter.2 ⟨he, by simp [heSrc]⟩, rfl⟩
  have heLong : e.2 ∈ ((links.filter fun l => l.1 = source).map (·.2)).filter
      fun x => 2 ≤ x.2.length :=
    List.mem_filter.2 ⟨heEntries, by simpa using heLen⟩
  obtain ⟨m, hm⟩ := path_len_max_isSome (List.ne_nil_of_mem heLong)
  obtain ⟨target, path⟩ := m
  have hmLong := path_len_max_mem hm
  have hmEntries := (List.mem_filter.1 hmLong).1
  have hmLen : 2 ≤ path.length := by
    simpa using (List.mem_filter.1 hmLong).2
  obtain ⟨l, hl, hl2⟩ := List.mem_map.1 hmEntries
  have hlSrc : l.1 = source := by
    have := (List.mem_filter.1 hl).2
    simpa using this
  have hlMem : (source, (target, path)) ∈ links := by
    have : l = (source, (target, path)) := by
      obtain ⟨l1, l2⟩ := l
      simp only at hl2
      simp only at hlSrc
      rw [hlSrc, hl2]
    rw [← this]
    exact (List.mem_filter.1 hl).1
  have hmax : ∀ e' ∈ links, e'.1 = source → e'.2.2.length ≤ path.length := by
    intro e' he' hSrc'
    by_cases hlen : 2 ≤ e'.2.2.length
    · have : e'.2 ∈ ((links.filter fun l => l.1 = source).map (·.2)).filter
          fun x => 2 ≤ x.2.length :=
        List.mem_filter.2
          ⟨List.mem_map.2 ⟨e', List.mem_filter.2 ⟨he', by simp [hSrc']⟩, rfl⟩,
            by simpa using hlen⟩
      exact path_len_max_le hm e'.2 this
    · omega
  have hreduce : ingress_reduce_at links source =
      some (Channel.ScopeIngress (path.headD 0) source.1 target.1) := by
    simp only [ingress_reduce_at]
    rw [hm]
  refine ⟨target, path, hlMem, hmLen, hmax, hreduce, ?_⟩
  exact List.mem_filterMap.2
    ⟨source, List.mem_dedup.2 (List.mem_map.2 ⟨_, he, heSrc⟩), hreduce⟩

/-- **C8, witness.**  A two-channel dataflow (an outer channel into subgraph
`[0, 2]` and an inner channel ending at the subgraph's port-0 boundary node)
whose propagated link set is a fixed point of `ingress_step`; the source
endpoint `([0, 1], 5)` has accumulated the length-2 path `[9, 3]`. -/
theorem subgraph_ingress_deepest_witness :
    ∃ target path,
      ((([0, 1], 5) : Endpoint), (target, path)) ∈
        ([((([0, 1], 5) : Endpoint), ((([0, 2, 7], 6) : Endpoint), [9, 3])),
          ((([0, 1], 5) : Endpoint), ((([0, 2], 5) : Endpoint), [9])),
          ((([0, 2, 7], 6) : Endpoint), ((([0, 2, 0], 5) : Endpoint), [3]))] : List Link) ∧
      2 ≤ path.length ∧
      (∀ e ∈ ([((([0, 1], 5) : Endpoint), ((([0, 2, 7], 6) : Endpoint), [9, 3])),
          ((([0, 1], 5) : Endpoint), ((([0, 2], 5) : Endpoint), [9])),
          ((([0, 2, 7], 6) : Endpoint), ((([0, 2, 0], 5) : Endpoint), [3]))] : List Link),
        e.1 = (([0, 1], 5) : Endpoint) → e.2.2.length ≤ path.length) ∧
      ingress_reduce_at
          ([((([0, 1], 5) : Endpoint), ((([0, 2, 7], 6) : Endpoint), [9, 3])),
            ((([0, 1], 5) : Endpoint), ((([0, 2], 5) : Endpoint), [9])),
            ((([0, 2, 7], 6) : Endpoint), ((([0, 2, 0], 5) : Endpoint), [3]))] : List Link)
          (([0, 1], 5) : Endpoint) =
        some (Channel.ScopeIngress (path.headD 0) [0, 1] target.1) ∧
      Channel.ScopeIngress (path.headD 0) [0, 1] target.1 ∈
        ingress_reduce
          ([((([0, 1], 5) : Endpoint), ((([0, 2, 7], 6) : Endpoint), [9, 3])),
            ((([0, 1], 5) : Endpoint), ((([0, 2], 5) : Endpoint), [9])),
            ((([0, 2, 7], 6) : Endpoint), ((([0, 2, 0], 5) : Endpoint), [3]))] : List Link) :=
  subgraph_ingress_deepest
    [⟨9, [0], (1, 5), (2, 5)⟩, ⟨3, [0, 2], (7, 6), (0, 5)⟩]
    [((([0, 1], 5) : Endpoint), ((([0, 2, 7], 6) : Endpoint), [9, 3])),
      ((([0, 1], 5) : Endpoint), ((([0, 2], 5) : Endpoint), [9])),
      ((([0, 2, 7], 6) : Endpoint), ((([0, 2, 0], 5) : Endpoint), [3]))]
    (([0, 1], 5) : Endpoint) (by decide) (by decide)

/-- **C1, counterexample.**  The raw channel
`Channels(id = 9, scope_addr = [0], src = (1, 0), tgt = (2, 0))` has source
*port* `0` (its second component), yet `subgraph_normal` emits it as
`Channel::Normal`: the filter in the code tests the endpoint *node* indices
(`source.0`/`target.0`), not the ports. -/
theorem subgraph_normal_port_zero_counterexample :
    subgraph_normal [⟨9, [0], (1, 0), (2, 0)⟩] [] =
        [Channel.Normal 9 [0, 1] [0, 2]] ∧
      (ChannelsEvent.mk 9 [0] (1, 0) (2, 0)).source.2 = 0 := by
  constructor <;> rfl

/-- **C1, amended.**  A raw channel is classified as `Channel::Normal` exactly
when neither endpoint *node index* (`source.0` / `target.0`) is `0` and
neither fully-qualified endpoint address (`scope_addr ++ [node]`) is in the
subgraph-address set; the endpoint *ports* play no role in the
classification. -/
theorem subgraph_normal_classification (channels : List ChannelsEvent)
    (subgraphs : List OperatorAddr) (c : Channel) :
    c ∈ subgraph_normal channels subgraphs ↔
      ∃ ch ∈ channels,
        ch.source.1 ≠ 0 ∧ ch.target.1 ≠ 0 ∧
        ¬ subgraphs.contains (ch.scope_addr ++ [ch.source.1]) ∧
        ¬ subgraphs.contains (ch.scope_addr ++ [ch.target.1]) ∧
        c = Channel.Normal ch.id (ch.scope_addr ++ [ch.source.1])
          (ch.scope_addr ++ [ch.target.1]) := by
  simp only [subgraph_normal, List.mem_map, List.mem_filter, List.mem_filterMap,
    Option.ite_none_right_eq_some, Option.some.injEq, decide_not, Bool.not_eq_true',
    decide_eq_false_iff_not]
  constructor
  · rintro ⟨a, ⟨⟨b, ⟨⟨ch, hch, ⟨hsrc, htgt⟩, rfl⟩, hy⟩, rfl⟩, hx⟩, rfl⟩
    exact ⟨ch, hch, hsrc, htgt, hy, hx, rfl⟩
  · rintro ⟨ch, hch, hsrc, htgt, hs, ht, rfl⟩
    exact ⟨_, ⟨⟨_, ⟨⟨ch, hch, ⟨hsrc, htgt⟩, rfl⟩, hs⟩, rfl⟩, ht⟩, rfl⟩

/-! ## The span correlator and worker timeline (`worker_timeline.rs`)

Capabilities are modelled by their times.  Capability downgrading
(`stored_capability.downgrade(..)`) only affects progress tracking in the
host runtime, never the `(data, time, diff)` triples that form the derived
collections, so the model records stored capability times but does not
track downgrades.  A Rust panic (in particular `Duration` subtraction
underflow) is modelled by an `Option`-valued result being `none`. -/

inductive StartStop where
  | start
  | stop
  deriving DecidableEq, Repr

inductive ParkEvent where
  | park
  | unpark
  deriving DecidableEq, Repr

/-- `OperatesEvent`: declares that an operator exists. -/
structure OperatesEvent where
  id : OperatorId
  addr : OperatorAddr
  name : String
  deriving DecidableEq, Repr

/-- `timely::logging::TimelyEvent` (the variants the analyzer consumes;
payload fields not read by the analyzer are omitted). -/
inductive TimelyEvent where
  | operates (event : OperatesEvent)
  | channels (event : ChannelsEvent)
  | schedule (id : OperatorId) (start_stop : StartStop)
  | shutdown (id : OperatorId)
  | application (id : Nat) (is_start : Bool)
  | guardedMessage (is_start : Bool)
  | guardedProgress (is_start : Bool)
  | input (start_stop : StartStop)
  | park (event : ParkEvent)
  | pushProgress
  | messages
  | commChannels
  | text
  deriving DecidableEq, Repr

/-- `DifferentialEvent` (the variants the timeline consumes). -/
inductive DifferentialEvent where
  | merge (operator : OperatorId) (complete : Option Nat)
  | mergeShortfall (operator : OperatorId)
  | drop (operator : OperatorId)
  | batch
  | traceShare
  deriving DecidableEq, Repr

/-- The span key `EventKind` of `worker_timeline.rs`. -/
inductive EventKind where
  | operatorActivation (operator_id : OperatorId)
  | message
  | progress
  | input
  | park
  | application (id : Nat)
  | merge (operator_id : OperatorId)
  deriving DecidableEq, Repr

/-- `PartialTimelineEvent` of `worker_timeline.rs`. -/
inductive PartialTimelineEvent where
  | operatorActivation (operator_id : OperatorId)
  | application
  | parked
  | input
  | message
  | progress
  | merge (operator_id : OperatorId)
  deriving DecidableEq, Repr

/-- `PartialTimelineEvent::operator_id`. -/
def PartialTimelineEvent.operator_id : PartialTimelineEvent → Option OperatorId
  | .operatorActivation id => some id
  | .merge id => some id
  | _ => none

/-- `TimelineEvent` of `worker_timeline.rs` (operator names filled in by the
join against the name arrangement). -/
inductive TimelineEvent where
  | operatorActivation (operator_id : OperatorId) (operator_name : String)
  | application
  | parked
  | input
  | message
  | progress
  | merge (operator_id : OperatorId) (operator_name : String)
  deriving DecidableEq, Repr

/-- The `Into<TimelineEvent>` impl for `PartialTimelineEvent` (names start
empty). -/
def PartialTimelineEvent.toTimelineEvent : PartialTimelineEvent → TimelineEvent
  | .operatorActivation id => .operatorActivation id ""
  | .application => .application
  | .parked => .parked
  | .input => .input
  | .message => .message
  | .progress => .progress
  | .merge id => .merge id ""

/-- Writing through `TimelineEvent::operator_name_mut` (only ever called on
events that carry an operator id). -/
def TimelineEvent.set_operator_name (name : String) : TimelineEvent → TimelineEvent
  | .operatorActivation id _ => .operatorActivation id name
  | .merge id _ => .merge id name
  | e => e

/-- `WorkerTimelineEvent` of `worker_timeline.rs`. -/
structure WorkerTimelineEvent where
  event_id : Nat
  worker : WorkerId
  event : TimelineEvent
  start_time : Nat
  duration : Nat
  collapsed_events : Nat
  deriving DecidableEq, Repr

/-- The correlator's `event_map`: `(worker, kind)` keys to stacks of
`(start_time, stored capability time)`, newest entry first. -/
abbrev EventMap := List ((WorkerId × EventKind) × List (Time × Time))

/-- A `((worker, event, duration), time, diff)` triple of the timeline event
stream. -/
abbrev TimelineOutput := (WorkerId × PartialTimelineEvent × Nat) × Time × Int

/-- `HashMap::entry(..).or_insert_with(Vec::new).push(v)`. -/
def mapPush (k : WorkerId × EventKind) (v : Time × Time) : EventMap → EventMap
  | [] => [(k, [v])]
  | (k', s) :: rest =>
    if k' = k then (k', v :: s) :: rest else (k', s) :: mapPush k v rest

/-- `event_map.get_mut(&k).and_then(Vec::pop)`, also returning the map after
the pop. -/
def mapPop (k : WorkerId × EventKind) : EventMap → Option ((Time × Time) × EventMap)
  | [] => none
  | (k', s) :: rest =>
    if k' = k then
      match s with
      | [] => none
      | v :: tail => some (v, (k', tail) :: rest)
    else (mapPop k rest).map fun x => (x.1, (k', s) :: x.2)

/-- `EventProcessor::insert`: push `(time, capability)` onto the stack at
`(worker, event_kind)`. -/
def ep_insert (worker : WorkerId) (time capTime : Time) (event_kind : EventKind)
    (m : EventMap) : EventMap :=
  mapPush (worker, event_kind) (time, capTime) m

/-- `EventProcessor::output_event`: `duration = self.time - start_time`
(Rust `Duration` subtraction, panicking on underflow) and one output record
at `self.time`. -/
def ep_output_event (worker : WorkerId) (time start_time : Time)
    (pevent : PartialTimelineEvent) : Option TimelineOutput :=
  (checkedSub time start_time).map fun duration =>
    ((worker, pevent, duration), time, 1)

/-- `EventProcessor::remove`: pop the stack at `(worker, event_kind)`; if
nothing is open, warn and drop; otherwise emit one completion record. -/
def ep_remove (worker : WorkerId) (time : Time) (event_kind : EventKind)
    (pevent : PartialTimelineEvent) (m : EventMap) :
    Option (EventMap × List TimelineOutput) :=
  match mapPop (worker, event_kind) m with
  | some ((start_time, _stored), m') =>
    (ep_output_event worker time start_time pevent).map fun o => (m', [o])
  | none => some (m, [])

/-- Does this span key reference the operator being shut down?  (The guard of
the first arm of the match in `EventProcessor::remove_referencing`.) -/
def kind_references (op : OperatorId) : EventKind → Bool
  | .operatorActivation id => id = op
  | .merge id => id = op
  | _ => false

/-- The `partial_event` chosen for a drained stack in `remove_referencing`
(only activation and merge keys are ever drained). -/
def kind_to_pevent : EventKind → PartialTimelineEvent
  | .operatorActivation id => .operatorActivation id
  | .merge id => .merge id
  | .message => .message
  | .progress => .progress
  | .input => .input
  | .park => .parked
  | .application _ => .application

/-- `EventProcessor::remove_referencing`: drain every stack whose key
references `op` (emitting one completion record per entry, oldest first),
keep all other entries. -/
def ep_remove_referencing (worker : WorkerId) (time : Time) (op : OperatorId)
    (m : EventMap) : Option (EventMap × List TimelineOutput) :=
  let kept := m.filter fun (e : (WorkerId × EventKind) × List (Time × Time)) =>
    ! kind_references op e.1.2
  let drained := m.filter fun (e : (WorkerId × EventKind) × List (Time × Time)) =>
    kind_references op e.1.2
  (drained.mapM fun (e : (WorkerId × EventKind) × List (Time × Time)) =>
      e.2.reverse.mapM fun (sv : Time × Time) =>
        (checkedSub time sv.1).map fun duration =>
          (((worker, kind_to_pevent e.1.2, duration), time, 1) : TimelineOutput)).map
    fun outs => (kept, outs.flatten)

/-- `EventProcessor::start_stop`. -/
def ep_start_stop (worker : WorkerId) (time capTime : Time) (event_kind : EventKind)
    (pevent : PartialTimelineEvent) (ss : StartStop) (m : EventMap) :
    Option (EventMap × List TimelineOutput) :=
  match ss with
  | .start => some (ep_insert worker time capTime event_kind m, [])
  | .stop => ep_remove worker time event_kind pevent m

/-- `EventProcessor::is_start`. -/
def ep_is_start (worker : WorkerId) (time capTime : Time) (event_kind : EventKind)
    (pevent : PartialTimelineEvent) (is_start : Bool) (m : EventMap) :
    Option (EventMap × List TimelineOutput) :=
  ep_start_stop worker time capTime event_kind pevent
    (if is_start then .start else .stop) m

/-- `process_timely_event` of `worker_timeline.rs`. -/
def process_timely_event (worker : WorkerId) (time capTime : Time)
    (event : TimelyEvent) (m : EventMap) : Option (EventMap × List TimelineOutput) :=
  match event with
  | .schedule id ss =>
    ep_start_stop worker time capTime (.operatorActivation id)
      (.operatorActivation id) ss m
  | .application id is_start =>
    ep_is_start worker time capTime (.application id) .application is_start m
  | .guardedMessage is_start =>
    ep_is_start worker time capTime .message .message is_start m
  | .guardedProgress is_start =>
    ep_is_start worker time capTime .progress .progress is_start m
  | .input ss => ep_start_stop worker time capTime .input .input ss m
  | .park pk =>
    match pk with
    | .park => some (ep_insert worker time capTime .park m, [])
    | .unpark => ep_remove worker time .park .parked m
  | .shutdown id => ep_remove_referencing worker time id m
  | .operates _ | .channels _ | .pushProgress | .messages
  | .commChannels | .text => some (m, [])

/-- One input batch of `collect_timely_events`, processed under the batch's
capability. -/
def collect_timely_batch (capTime : Time) (m : EventMap) :
    List (Time × WorkerId × TimelyEvent) → Option (EventMap × List TimelineOutput)
  | [] => some (m, [])
  | (time, worker, event) :: rest => do
    let (m', outs) ← process_timely_event worker time capTime event m
    let (m'', outs') ← collect_timely_batch capTime m' rest
    return (m'', outs ++ outs')

/-- `collect_timely_events` of `worker_timeline.rs`: fold all batches through
the `EventProcessor`, starting from an empty event map. -/
def collect_timely_go (m : EventMap) :
    List (Time × List (Time × WorkerId × TimelyEvent)) →
      Option (EventMap × List TimelineOutput)
  | [] => some (m, [])
  | (capTime, batch) :: rest => do
    let (m', outs) ← collect_timely_batch capTime m batch
    let (m'', outs') ← collect_timely_go m' rest
    return (m'', outs ++ outs')

def collect_timely_events (batches : List (Time × List (Time × WorkerId × TimelyEvent))) :
    Option (EventMap × List TimelineOutput) :=
  collect_timely_go [] batches

/-- The differential operator's *separate* event map: one slot per
`(worker, kind)` (a plain `HashMap` value, not a stack). -/
abbrev DiffEventMap := List ((WorkerId × EventKind) × (Time × Time))

/-- `HashMap::insert`, returning the previous entry. -/
def slotInsert (k : WorkerId × EventKind) (v : Time × Time) :
    DiffEventMap → Option (Time × Time) × DiffEventMap
  | [] => (none, [(k, v)])
  | (k', v') :: rest =>
    if k' = k then (some v', (k, v) :: rest)
    else
      let (old, rest') := slotInsert k v rest
      (old, (k', v') :: rest')

/-- `HashMap::remove`. -/
def slotRemove (k : WorkerId × EventKind) :
    DiffEventMap → Option ((Time × Time) × DiffEventMap)
  | [] => none
  | (k', v') :: rest =>
    if k' = k then some (v', rest)
    else (slotRemove k rest).map fun x => (x.1, (k', v') :: x.2)

/-- The body of the "Associate Differential Start/Stop Events" operator: a
`Merge` with `complete = None` opens the slot (a still-open previous merge is
silently replaced); `Merge` with `complete = Some`, `MergeShortfall` and
`Drop` close it, emitting one completion record. -/
def process_differential_event (worker : WorkerId) (time : Time) (capTime : Time)
    (event : DifferentialEvent) (m : DiffEventMap) :
    Option (DiffEventMap × List TimelineOutput) :=
  match event with
  | .merge op complete =>
    if complete.isNone then
      some ((slotInsert (worker, .merge op) (time, capTime) m).2, [])
    else
      match slotRemove (worker, .merge op) m with
      | some ((start_time, _stored), m') =>
        (checkedSub time start_time).map fun duration =>
          (m', [((worker, .merge op, duration), time, 1)])
      | none => some (m, [])
  | .mergeShortfall op =>
    match slotRemove (worker, .merge op) m with
    | some ((start_time, _stored), m') =>
      (checkedSub time start_time).map fun duration =>
        (m', [((worker, .merge op, duration), time, 1)])
    | none => some (m, [])
  | .drop op =>
    match slotRemove (worker, .merge op) m with
    | some ((start_time, _stored), m') =>
      (checkedSub time start_time).map fun duration =>
        (m', [((worker, .merge op, duration), time, 1)])
    | none => some (m, [])
  | .batch | .traceShare => some (m, [])

def collect_differential_batch (capTime : Time) (m : DiffEventMap) :
    List (Time × WorkerId × DifferentialEvent) → Option (DiffEventMap × List TimelineOutput)
  | [] => some (m, [])
  | (time, worker, event) :: rest => do
    let (m', outs) ← process_differential_event worker time capTime event m
    let (m'', outs') ← collect_differential_batch capTime m' rest
    return (m'', outs ++ outs')

def collect_differential_go (m : DiffEventMap) :
    List (Time × List (Time × WorkerId × DifferentialEvent)) →
      Option (DiffEventMap × List TimelineOutput)
  | [] => some (m, [])
  | (capTime, batch) :: rest => do
    let (m', outs) ← collect_differential_batch capTime m batch
    let (m'', outs') ← collect_differential_go m' rest
    return (m'', outs ++ outs')

def collect_differential_events
    (batches : List (Time × List (Time × WorkerId × DifferentialEvent))) :
    Option (DiffEventMap × List TimelineOutput) :=
  collect_differential_go [] batches

/-- The pure tail of `worker_timeline`: `identifiers()`, the `filter_split`
into name-needing and finished events, the join against the operator-name
arrangement, and the final `concat`. -/
def assemble_timeline (events : List (WorkerId × PartialTimelineEvent × Nat))
    (operator_names : List (OperatorId × String)) : List WorkerTimelineEvent :=
  let identified := events.enum.map fun x => (x.2, x.1)
  let timeline_event : (WorkerId × PartialTimelineEvent × Nat) × Nat → WorkerTimelineEvent :=
    fun x =>
      { event_id := x.2
        worker := x.1.1
        event := x.1.2.1.toTimelineEvent
        duration := x.1.2.2
        start_time := x.1.2.2
        collapsed_events := 1 }
  let needs_operators := identified.filterMap fun x =>
    (x.1.2.1.operator_id).map fun op => (op, timeline_event x)
  let finished := identified.filterMap fun x =>
    match x.1.2.1.operator_id with
    | some _ => none
    | none => some (timeline_event x)
  let joined := needs_operators.flatMap fun x =>
    operator_names.filterMap fun n =>
      if n.1 = x.1 then
        some { x.2 with event := x.2.event.set_operator_name n.2 }
      else none
  joined ++ finished

/-- The optional differential input of `worker_timeline`: the output of the
merge-association operator, when a differential stream is attached. -/
def diff_outputs
    (diffBatches : Option (List (Time × List (Time × WorkerId × DifferentialEvent)))) :
    Option (List TimelineOutput) :=
  match diffBatches with
  | some batches =>
    (collect_differential_events batches).map fun (x : DiffEventMap × List TimelineOutput) => x.2
  | none => some []

/-- `worker_timeline` of `worker_timeline.rs`: run the timely correlator and
(optionally) the differential merge correlator — two operators with
*separate* event maps — concatenate their outputs and assemble the timeline
events. -/
def worker_timeline (timelyBatches : List (Time × List (Time × WorkerId × TimelyEvent)))
    (diffBatches : Option (List (Time × List (Time × WorkerId × DifferentialEvent))))
    (operator_names : List (OperatorId × String)) : Option (List WorkerTimelineEvent) :=
  match collect_timely_events timelyBatches with
  | none => none
  | some (_, timely_outs) =>
    match diff_outputs diffBatches with
    | none => none
    | some diff_outs =>
      some (assemble_timeline
        ((timely_outs ++ diff_outs).map fun (x : TimelineOutput) => x.1) operator_names)

theorem assemble_timeline_fields (events : List (WorkerId × PartialTimelineEvent × Nat))
    (operator_names : List (OperatorId × String)) :
    ∀ ev ∈ assemble_timeline events operator_names, ev.start_time = ev.duration := by
  intro ev hev
  simp only [assemble_timeline, List.mem_append, List.mem_flatMap, List.mem_filterMap,
    Option.map_eq_some'] at hev
  rcases hev with ⟨x, ⟨y, hy, op, hop, rfl⟩, n, hn, hif⟩ | ⟨y, hy, hmatch⟩
  · dsimp only at hif
    by_cases heq : n.1 = op
    · rw [if_pos heq] at hif
      cases Option.some.inj hif
      rfl
    · rw [if_neg heq] at hif
      exact Option.noConfusion hif
  · cases hop : y.1.2.1.operator_id with
    | some o =>
      rw [hop] at hmatch
      exact Option.noConfusion hmatch
    | none =>
      rw [hop] at hmatch
      cases Option.some.inj hmatch
      rfl

/-- **C10.**  Every `WorkerTimelineEvent` produced by `worker_timeline` has
`start_time` equal to `duration`: both fields are set from the span's
duration at construction (`start_time: duration.as_nanos() as u64`), not
from the span's start time. -/
theorem worker_timeline_start_time_is_duration
    (tb : List (Time × List (Time × WorkerId × TimelyEvent)))
    (db : Option (List (Time × List (Time × WorkerId × DifferentialEvent))))
    (names : List (OperatorId × String)) (out : List WorkerTimelineEvent)
    (ev : WorkerTimelineEvent) (hout : worker_timeline tb db names = some out)
    (hev : ev ∈ out) : ev.start_time = ev.duration := by
  unfold worker_timeline at hout
  cases ht : collect_timely_events tb with
  | none => rw [ht] at hout; exact Option.noConfusion hout
  | some tres =>
    rw [ht] at hout
    obtain ⟨tmap, touts⟩ := tres
    cases hdo : diff_outputs db with
    | none =>
      rw [hdo] at hout
      exact Option.noConfusion hout
    | some diff_outs =>
      rw [hdo] at hout
      dsimp only at hout
      cases Option.some.inj hout
      exact assemble_timeline_fields _ _ ev hev

/-- **C10, witness.**  A single completed activation of operator `7`
(start 200, stop 350) yields a timeline event whose `start_time` equals its
`duration` (both 150). -/
theorem worker_timeline_start_time_is_duration_witness :
    ({ event_id := 0, worker := 0, event := .operatorActivation 7 "map",
        start_time := 150, duration := 150, collapsed_events := 1 } :
      WorkerTimelineEvent).start_time =
      ({ event_id := 0, worker := 0, event := .operatorActivation 7 "map",
          start_time := 150, duration := 150, collapsed_events := 1 } :
        WorkerTimelineEvent).duration :=
  worker_timeline_start_time_is_duration
    [(100, [(200, 0, .schedule 7 .start), (350, 0, .schedule 7 .stop)])] none
    [(7, "map")]
    [{ event_id := 0, worker := 0, event := .operatorActivation 7 "map",
        start_time := 150, duration := 150, collapsed_events := 1 }]
    { event_id := 0, worker := 0, event := .operatorActivation 7 "map",
      start_time := 150, duration := 150, collapsed_events := 1 }
    (by rfl) (by simp)

/-- **C2.**  A differential `Merge { op = 5, complete = None }` at time 100
followed by a timely `Shutdown(5)` at time 150 produces *no* timeline event:
the merge span lives in the differential operator's own event map, which
never sees `Shutdown` events, while `remove_referencing` (which does handle
`Merge` keys) drains only the timely correlator's map.  The spec expects one
`Merge { op = 5, dur = 50 }` at time 150; the open merge is instead left
dangling in the differential map. -/
theorem worker_timeline_shutdown_leaves_merge_open :
    worker_timeline [(150, [(150, 0, TimelyEvent.shutdown 5)])]
        (some [(100, [(100, 0, DifferentialEvent.merge 5 none)])])
        [(5, "arrange")] = some [] ∧
      collect_differential_events [(100, [(100, 0, DifferentialEvent.merge 5 none)])] =
        some ([((0, .merge 5), (100, 100))], []) := by
  constructor <;> rfl

/-- **C3, counterexample.**  A `Schedule(Stop)` at time 5 paired with a
`Schedule(Start)` at time 10 makes the correlator *panic* (modelled as
`none`): the `Duration` subtraction `self.time - start_time` underflows.  No
completion record with a zero-clamped duration is emitted. -/
theorem timely_stop_before_start_panics :
    collect_timely_events
      [(5, [(10, 0, TimelyEvent.schedule 1 .start),
        (5, 0, TimelyEvent.schedule 1 .stop)])] = none := rfl

/-- **C3, amended.**  If a `Stop` arrives at a time earlier than its paired
`Start`, the correlator panics on `Duration` subtraction underflow
(`EventProcessor::output_event`); it does not clamp the duration to zero and
emits nothing. -/
theorem ep_remove_time_regression (m m' : EventMap) (worker : WorkerId)
    (time start_time stored : Time) (event_kind : EventKind)
    (pevent : PartialTimelineEvent)
    (hpop : mapPop (worker, event_kind) m = some ((start_time, stored), m'))
    (hlt : time < start_time) :
    ep_remove worker time event_kind pevent m = none := by
  have hns : ¬ start_time ≤ time := Nat.not_le.mpr hlt
  unfold ep_remove
  rw [hpop]
  dsimp only
  unfold ep_output_event checkedSub
  rw [if_neg hns]
  rfl

/-- **C3, amended, witness.**  Stack top opened at time 10, stop at time 5:
the pop succeeds but the emission panics. -/
theorem ep_remove_time_regression_witness :
    ep_remove 0 5 (.operatorActivation 1) (.operatorActivation 1)
      [((0, .operatorActivation 1), [(10, 0)])] = none :=
  ep_remove_time_regression [((0, .operatorActivation 1), [(10, 0)])]
    [((0, .operatorActivation 1), [])] 0 5 10 0 (.operatorActivation 1)
    (.operatorActivation 1) (by rfl) (by decide)

/-! ## The timely event extractor (`timely_source.rs`) -/

/-- Generic association-list `HashMap::insert` (previous value discarded). -/
def alistPut {κ α : Type} [DecidableEq κ] (k : κ) (v : α) : List (κ × α) → List (κ × α)
  | [] => [(k, v)]
  | (k', v') :: rest => if k' = k then (k, v) :: rest else (k', v') :: alistPut k v rest

/-- Generic association-list `HashMap::remove`. -/
def alistRemove {κ α : Type} [DecidableEq κ] (k : κ) : List (κ × α) → Option (α × List (κ × α))
  | [] => none
  | (k', v') :: rest =>
    if k' = k then some (v', rest)
    else (alistRemove k rest).map fun x => (x.1, (k', v') :: x.2)

/-- `PROGRAM_NS_GRANULARITY` (1 ms in nanoseconds), from the spec's §4.C. -/
def PROGRAM_NS_GRANULARITY : Nat := 1000000

/-- Modelled from the spec: `granulate` lives in `src/dataflow/utils.rs`,
which is not part of the provided sources.  Per the spec (§4.C), it rounds a
timestamp "up to the next 1 ms boundary": the least multiple of
`PROGRAM_NS_GRANULARITY` that is ≥ the timestamp. -/
def granulate (t : Time) : Time :=
  ((t + PROGRAM_NS_GRANULARITY - 1) / PROGRAM_NS_GRANULARITY) * PROGRAM_NS_GRANULARITY

/-- Apply `.delay(granulate)` to a stream of `(data, time, diff)` triples. -/
def granulate_stream {α : Type} (s : List (α × Time × Int)) : List (α × Time × Int) :=
  s.map fun x => (x.1, granulate x.2.1, x.2.2)

/-- The mutable maps owned by the "Extract Operator Info" operator. -/
structure TsState where
  lifespan_map : List ((WorkerId × OperatorId) × Time)
  activation_map : List ((WorkerId × OperatorId) × Time)
  event_map : EventMap
  deriving DecidableEq, Repr

def TsState.initial : TsState := ⟨[], [], []⟩

/-- The output streams of `extract_timely_info`, as lists of
`(data, time, diff)` triples. -/
structure TimelyOutputs where
  lifespans : List (((WorkerId × OperatorId) × (Time × Time)) × Time × Int)
  activation_durations : List (((WorkerId × OperatorId) × (Time × Time)) × Time × Int)
  operator_creations : List (((WorkerId × OperatorId) × Time) × Time × Int)
  channel_creations : List (((WorkerId × ChannelId) × Time) × Time × Int)
  raw_channels : List ((WorkerId × ChannelsEvent) × Time × Int)
  raw_operators : List ((WorkerId × OperatesEvent) × Time × Int)
  operator_names : List (((WorkerId × OperatorId) × String) × Time × Int)
  operator_ids : List (((WorkerId × OperatorId) × OperatorAddr) × Time × Int)
  operator_addrs : List (((WorkerId × OperatorAddr) × OperatorId) × Time × Int)
  operator_addrs_by_self : List (((WorkerId × OperatorAddr) × Unit) × Time × Int)
  channel_scope_addrs : List (((WorkerId × ChannelId) × OperatorAddr) × Time × Int)
  dataflow_ids : List (((WorkerId × OperatorId) × Unit) × Time × Int)
  worker_events : List TimelineOutput
  deriving DecidableEq, Repr

def TimelyOutputs.empty : TimelyOutputs :=
  ⟨[], [], [], [], [], [], [], [], [], [], [], [], []⟩

def TimelyOutputs.append (a b : TimelyOutputs) : TimelyOutputs where
  lifespans := a.lifespans ++ b.lifespans
  activation_durations := a.activation_durations ++ b.activation_durations
  operator_creations := a.operator_creations ++ b.operator_creations
  channel_creations := a.channel_creations ++ b.channel_creations
  raw_channels := a.raw_channels ++ b.raw_channels
  raw_operators := a.raw_operators ++ b.raw_operators
  operator_names := a.operator_names ++ b.operator_names
  operator_ids := a.operator_ids ++ b.operator_ids
  operator_addrs := a.operator_addrs ++ b.operator_addrs
  operator_addrs_by_self := a.operator_addrs_by_self ++ b.operator_addrs_by_self
  channel_scope_addrs := a.channel_scope_addrs ++ b.channel_scope_addrs
  dataflow_ids := a.dataflow_ids ++ b.dataflow_ids
  worker_events := a.worker_events ++ b.worker_events

/-- One event of the main loop of `extract_timely_info` (timeline enabled):
run the `EventProcessor` on the event, then the big `match`.  `session_time`
is `capability_time.join(&time)`; data-carrying times inside records stay the
exact event `time`. -/
def extract_step (capTime : Time) (st : TsState) (time : Time) (worker : WorkerId)
    (event : TimelyEvent) : Option (TsState × TimelyOutputs) := do
  let session_time := max capTime time
  let (em, wouts) ← process_timely_event worker time session_time event st.event_map
  let st := { st with event_map := em }
  let base := { TimelyOutputs.empty with worker_events := wouts }
  match event with
  | .operates operates =>
    let st := { st with
      lifespan_map := alistPut (worker, operates.id) time st.lifespan_map }
    let is_top_level := operates.addr.length = 1
    return (st, { base with
      raw_operators := [((worker, operates), session_time, 1)]
      operator_creations := [(((worker, operates.id), time), session_time, 1)]
      operator_names := [(((worker, operates.id), operates.name), session_time, 1)]
      dataflow_ids :=
        if is_top_level then [(((worker, operates.id), ()), session_time, 1)] else []
      operator_ids := [(((worker, operates.id), operates.addr), session_time, 1)]
      operator_addrs := [(((worker, operates.addr), operates.id), session_time, 1)]
      operator_addrs_by_self := [(((worker, operates.addr), ()), session_time, 1)] })
  | .shutdown id =>
    match alistRemove (worker, id) st.lifespan_map with
    | some (start_time, lm') =>
      let st := { st with lifespan_map := lm' }
      let st := { st with
        activation_map := ((alistRemove (worker, id) st.activation_map).map
          fun x => x.2).getD st.activation_map }
      return (st, { base with
        lifespans := [(((worker, id), (start_time, time)), session_time, 1)] })
    | none =>
      let st := { st with
        activation_map := ((alistRemove (worker, id) st.activation_map).map
          fun x => x.2).getD st.activation_map }
      return (st, base)
  | .schedule operator ss =>
    match ss with
    | .start =>
      return ({ st with
        activation_map := alistPut (worker, operator) time st.activation_map }, base)
    | .stop =>
      match alistRemove (worker, operator) st.activation_map with
      | some (start_time, am') =>
        let duration ← checkedSub time start_time
        return ({ st with activation_map := am' }, { base with
          activation_durations :=
            [(((worker, operator), (start_time, duration)), session_time, 1)] })
      | none => return (st, base)
  | .channels channel =>
    return (st, { base with
      raw_channels := [((worker, channel), session_time, 1)]
      channel_creations := [(((worker, channel.id), time), session_time, 1)]
      channel_scope_addrs := [(((worker, channel.id), channel.scope_addr), session_time, 1)] })
  | .application _ _ | .guardedMessage _ | .guardedProgress _ | .input _
  | .park _ | .pushProgress | .messages | .commChannels | .text =>
    return (st, base)

/-- Process one input batch of `extract_timely_info` under its capability. -/
def extract_batch (capTime : Time) (st : TsState) :
    List (Time × WorkerId × TimelyEvent) → Option (TsState × TimelyOutputs)
  | [] => some (st, TimelyOutputs.empty)
  | (time, worker, event) :: rest => do
    let (st', outs) ← extract_step capTime st time worker event
    let (st'', outs') ← extract_batch capTime st' rest
    return (st'', outs.append outs')

def extract_go (st : TsState) :
    List (Time × List (Time × WorkerId × TimelyEvent)) → Option (TsState × TimelyOutputs)
  | [] => some (st, TimelyOutputs.empty)
  | (capTime, batch) :: rest => do
    let (st', outs) ← extract_batch capTime st batch
    let (st'', outs') ← extract_go st' rest
    return (st'', outs.append outs')

/-- `extract_timely_info` of `timely_source.rs` (timeline enabled): fold the
batches through the operator, then apply `.delay(granulate)` to every output
except `raw_operators` (left on the exact session time, per the `FIXME` in
the source) and `worker_events` (deliberately not granulated). -/
def extract_timely_info (batches : List (Time × List (Time × WorkerId × TimelyEvent))) :
    Option (TsState × TimelyOutputs) :=
  (extract_go TsState.initial batches).map fun x =>
    (x.1,
      { lifespans := granulate_stream x.2.lifespans
        activation_durations := granulate_stream x.2.activation_durations
        operator_creations := granulate_stream x.2.operator_creations
        channel_creations := granulate_stream x.2.channel_creations
        raw_channels := granulate_stream x.2.raw_channels
        raw_operators := x.2.raw_operators
        operator_names := granulate_stream x.2.operator_names
        operator_ids := granulate_stream x.2.operator_ids
        operator_addrs := granulate_stream x.2.operator_addrs
        operator_addrs_by_self := granulate_stream x.2.operator_addrs_by_self
        channel_scope_addrs := granulate_stream x.2.channel_scope_addrs
        dataflow_ids := granulate_stream x.2.dataflow_ids
        worker_events := x.2.worker_events })

theorem granulate_dvd (t : Time) : PROGRAM_NS_GRANULARITY ∣ granulate t :=
  Dvd.intro _ (Nat.mul_comm _ _)

/-- **C4, counterexample.**  An `Operates` event at time 500 ns: the
`raw_operators` output (a non-timeline output) keeps the exact session time
500, although rounding up to the next 1 ms boundary would give 1000000.  (The
source marks this stream with a `FIXME: This isn't granulated`.) -/
theorem extract_raw_operators_not_granulated :
    ((extract_timely_info [(0, [(500, 0, TimelyEvent.operates ⟨1, [0], "src"⟩)])]).map
        fun x => x.2.raw_operators) =
      some [((0, ⟨1, [0], "src"⟩), 500, 1)] ∧
    granulate 500 = 1000000 := by
  constructor <;> rfl

/-- **C4, amended.**  Every non-timeline output of the extractor *except*
`raw_operators` has its timestamps granulated (multiples of
`PROGRAM_NS_GRANULARITY`), while `raw_operators` and the timeline output
(`worker_events`) keep the exact, undelayed times of the operator's raw
emissions. -/
theorem extract_timely_info_granulation
    (batches : List (Time × List (Time × WorkerId × TimelyEvent)))
    (st : TsState) (outs : TimelyOutputs)
    (h : extract_timely_info batches = some (st, outs)) :
    (∀ e ∈ outs.lifespans, PROGRAM_NS_GRANULARITY ∣ e.2.1) ∧
    (∀ e ∈ outs.activation_durations, PROGRAM_NS_GRANULARITY ∣ e.2.1) ∧
    (∀ e ∈ outs.operator_creations, PROGRAM_NS_GRANULARITY ∣ e.2.1) ∧
    (∀ e ∈ outs.channel_creations, PROGRAM_NS_GRANULARITY ∣ e.2.1) ∧
    (∀ e ∈ outs.raw_channels, PROGRAM_NS_GRANULARITY ∣ e.2.1) ∧
    (∀ e ∈ outs.operator_names, PROGRAM_NS_GRANULARITY ∣ e.2.1) ∧
    (∀ e ∈ outs.operator_ids, PROGRAM_NS_GRANULARITY ∣ e.2.1) ∧
    (∀ e ∈ outs.operator_addrs, PROGRAM_NS_GRANULARITY ∣ e.2.1) ∧
    (∀ e ∈ outs.operator_addrs_by_self, PROGRAM_NS_GRANULARITY ∣ e.2.1) ∧
    (∀ e ∈ outs.channel_scope_addrs, PROGRAM_NS_GRANULARITY ∣ e.2.1) ∧
    (∀ e ∈ outs.dataflow_ids, PROGRAM_NS_GRANULARITY ∣ e.2.1) ∧
    (∃ raw, extract_go TsState.initial batches = some (st, raw) ∧
      outs.raw_operators = raw.raw_operators ∧
      outs.worker_events = raw.worker_events) := by
  unfold extract_timely_info at h
  cases hr : extract_go TsState.initial batches with
  | none => rw [hr] at h; exact Option.noConfusion h
  | some res =>
    rw [hr] at h
    obtain ⟨st0, raw⟩ := res
    dsimp only [Option.map] at h
    obtain ⟨hst, houts⟩ := Prod.mk.injEq .. ▸ Option.some.inj h
    subst hst
    have hmem : ∀ {α : Type} (s : List (α × Time × Int)),
        ∀ e ∈ granulate_stream s, PROGRAM_NS_GRANULARITY ∣ e.2.1 := by
      intro α s e he
      obtain ⟨y, _, rfl⟩ := List.mem_map.1 he
      exact granulate_dvd _
    refine ⟨?_, ?_, ?_, ?_, ?_, ?_, ?_, ?_, ?_, ?_, ?_, ⟨raw, rfl, ?_, ?_⟩⟩ <;>
      first
        | (rw [← houts]; exact hmem _)
        | (rw [← houts])

/-- **C4, amended, witness.**  The granulation property evaluated on a
single `Operates` event at time 500. -/
theorem extract_timely_info_granulation_witness :
    (∀ e ∈ ([] : List (((WorkerId × OperatorId) × (Time × Time)) × Time × Int)),
      PROGRAM_NS_GRANULARITY ∣ e.2.1) ∧
    (∀ e ∈ ([] : List (((WorkerId × OperatorId) × (Time × Time)) × Time × Int)),
      PROGRAM_NS_GRANULARITY ∣ e.2.1) ∧
    (∀ e ∈ ([(((0, 1), 500), 1000000, 1)] :
        List (((WorkerId × OperatorId) × Time) × Time × Int)),
      PROGRAM_NS_GRANULARITY ∣ e.2.1) ∧
    (∀ e ∈ ([] : List (((WorkerId × ChannelId) × Time) × Time × Int)),
      PROGRAM_NS_GRANULARITY ∣ e.2.1) ∧
    (∀ e ∈ ([] : List ((WorkerId × ChannelsEvent) × Time × Int)),
      PROGRAM_NS_GRANULARITY ∣ e.2.1) ∧
    (∀ e ∈ ([(((0, 1), "src"), 1000000, 1)] :
        List (((WorkerId × OperatorId) × String) × Time × Int)),
      PROGRAM_NS_GRANULARITY ∣ e.2.1) ∧
    (∀ e ∈ ([(((0, 1), [0]), 1000000, 1)] :
        List (((WorkerId × OperatorId) × OperatorAddr) × Time × Int)),
      PROGRAM_NS_GRANULARITY ∣ e.2.1) ∧
    (∀ e ∈ ([(((0, [0]), 1), 1000000, 1)] :
        List (((WorkerId × OperatorAddr) × OperatorId) × Time × Int)),
      PROGRAM_NS_GRANULARITY ∣ e.2.1) ∧
    (∀ e ∈ ([(((0, [0]), ()), 1000000, 1)] :
        List (((WorkerId × OperatorAddr) × Unit) × Time × Int)),
      PROGRAM_NS_GRANULARITY ∣ e.2.1) ∧
    (∀ e ∈ ([] : List (((WorkerId × ChannelId) × OperatorAddr) × Time × Int)),
      PROGRAM_NS_GRANULARITY ∣ e.2.1) ∧
    (∀ e ∈ ([(((0, 1), ()), 1000000, 1)] :
        List (((WorkerId × OperatorId) × Unit) × Time × Int)),
      PROGRAM_NS_GRANULARITY ∣ e.2.1) ∧
    (∃ raw,
      extract_go TsState.initial [(0, [(500, 0, TimelyEvent.operates ⟨1, [0], "src"⟩)])] =
        some (⟨[((0, 1), 500)], [], []⟩, raw) ∧
      ([((0, ⟨1, [0], "src"⟩), 500, 1)] :
          List ((WorkerId × OperatesEvent) × Time × Int)) = raw.raw_operators ∧
      ([] : List TimelineOutput) = raw.worker_events) :=
  extract_timely_info_granulation [(0, [(500, 0, TimelyEvent.operates ⟨1, [0], "src"⟩)])]
    ⟨[((0, 1), 500)], [], []⟩
    ⟨[], [], [(((0, 1), 500), 1000000, 1)], [], [],
      [((0, ⟨1, [0], "src"⟩), 500, 1)], [(((0, 1), "src"), 1000000, 1)],
      [(((0, 1), [0]), 1000000, 1)], [(((0, [0]), 1), 1000000, 1)],
      [(((0, [0]), ()), 1000000, 1)], [], [(((0, 1), ()), 1000000, 1)], []⟩
    (by rfl)

/-- **C6.**  A `Stop` (or `Schedule(Stop)`) with no matching open `Start`:
the span correlator's `remove` emits nothing and leaves its map untouched,
and the extractor's `Schedule(Stop)` arm emits nothing and leaves the whole
extractor state unchanged. -/
theorem stop_without_start_no_output (m : EventMap) (worker : WorkerId)
    (time : Time) (event_kind : EventKind) (pevent : PartialTimelineEvent)
    (st : TsState) (capTime t2 : Time) (op : OperatorId)
    (hpop : mapPop (worker, event_kind) m = none)
    (hact : alistRemove (worker, op) st.activation_map = none)
    (hpop2 : mapPop (worker, EventKind.operatorActivation op) st.event_map = none) :
    ep_remove worker time event_kind pevent m = some (m, []) ∧
    extract_step capTime st t2 worker (TimelyEvent.schedule op .stop) =
      some (st, TimelyOutputs.empty) := by
  constructor
  · unfold ep_remove
    rw [hpop]
  · simp only [extract_step, process_timely_event, ep_start_stop, ep_remove, hpop2, hact]
    rfl

/-- **C6, witness.**  Orphan stops against empty correlator and extractor
states: nothing is emitted and both states are returned unchanged. -/
theorem stop_without_start_no_output_witness :
    ep_remove 0 10 EventKind.message PartialTimelineEvent.message [] = some ([], []) ∧
    extract_step 0 TsState.initial 10 0 (TimelyEvent.schedule 3 .stop) =
      some (TsState.initial, TimelyOutputs.empty) :=
  stop_without_start_no_output [] 0 10 EventKind.message PartialTimelineEvent.message
    TsState.initial 0 10 3 (by rfl) (by rfl) (by rfl)

/-! ## The framed event reader (`EventReader::next` in
`replay_with_shutdown.rs`)

The byte-level decoding is abstracted: `buffer` holds the frames already
decodable from `buff1`, and the underlying reader is a queue of read
results, where `none` models a zero-length read (EOF) and `some fs` a chunk
completing the frames `fs`. -/

/-- Frames are abstract tokens. -/
abbrev Frame := Nat

structure ReaderState where
  buffer : List Frame
  reads : List (Option (List Frame))
  peer_finished : Bool
  retried : Bool
  deriving DecidableEq, Repr

/-- The decode/shift/read tail of `EventReader::next` (everything below the
EOF bookkeeping): return a decoded frame when one is available; otherwise
perform one read — observing EOF when it returns zero bytes — and return
`Ok(None)`. -/
def reader_advance (s : ReaderState) : ReaderState × Option Frame :=
  match s.buffer with
  | f :: rest => ({ s with buffer := rest }, some f)
  | [] =>
    match s.reads with
    | [] => (s, none)
    | none :: rs => ({ s with peer_finished := true, reads := rs }, none)
    | some fs :: rs => ({ s with buffer := fs, reads := rs }, none)

/-- `EventReader::next`: the EOF bookkeeping at the top, then the
decode/read tail.  Returns the new state, whether this call set the
`is_finished` out-parameter, and the result. -/
def reader_next (s : ReaderState) : ReaderState × Bool × Option Frame :=
  if s.peer_finished && s.retried then
    let (s', r) := reader_advance s
    (s', true, r)
  else if s.peer_finished then
    ({ s with retried := true }, false, none)
  else
    let (s', r) := reader_advance s
    (s', false, r)

/-- The state after `k` calls to `next`. -/
def reader_run (s : ReaderState) : Nat → ReaderState
  | 0 => s
  | k + 1 => reader_run (reader_next s).1 k

theorem reader_advance_retried (s : ReaderState) :
    (reader_advance s).1.retried = s.retried := by
  unfold reader_advance
  cases s.buffer with
  | cons f rest => rfl
  | nil =>
    cases hr : s.reads with
    | nil => rfl
    | cons o rs => cases o <;> rfl

theorem reader_advance_peer (s : ReaderState) (h : s.peer_finished = true) :
    (reader_advance s).1.peer_finished = true := by
  unfold reader_advance
  cases s.buffer with
  | cons f rest => exact h
  | nil =>
    cases hr : s.reads with
    | nil => exact h
    | cons o rs => cases o <;> first | rfl | exact h

/-- `is_finished` is set exactly when both flags were already set at entry. -/
theorem reader_next_finished_iff (s : ReaderState) :
    (reader_next s).2.1 = (s.peer_finished && s.retried) := by
  unfold reader_next
  by_cases h : s.peer_finished && s.retried
  · rw [if_pos h, h]
  · rw [if_neg h]
    by_cases h2 : s.peer_finished = true
    · rw [if_pos h2]
      simp only [Bool.and_eq_true] at h
      simp [h2] at h
      simp [h2, h]
    · rw [if_neg h2]
      simp only [Bool.not_eq_true] at h2
      simp [h2]

theorem reader_next_peer_mono (s : ReaderState) (h : s.peer_finished = true) :
    (reader_next s).1.peer_finished = true := by
  unfold reader_next
  by_cases h1 : s.peer_finished && s.retried
  · rw [if_pos h1]
    exact reader_advance_peer s h
  · rw [if_neg h1, if_pos h]
    exact h

/-- Unfolding `reader_run` from the far end. -/
theorem reader_run_succ :
    ∀ (k : Nat) (s0 : ReaderState),
      reader_run s0 (k + 1) = (reader_next (reader_run s0 k)).1 := by
  intro k
  induction k with
  | zero => intro s0; rfl
  | succ k ih =>
    intro s0
    show reader_run (reader_next s0).1 (k + 1) = _
    rw [ih (reader_next s0).1]
    rfl

/-- The call on which `retried` flips is the first call that observes the
EOF flag: it returns `Ok(None)` and does not set `is_finished`. -/
theorem reader_next_retried_flip (s : ReaderState) (hnr : s.retried = false)
    (hset : (reader_next s).1.retried = true) :
    s.peer_finished = true ∧ (reader_next s).2.2 = none ∧
      (reader_next s).2.1 = false := by
  unfold reader_next at hset ⊢
  by_cases h1 : s.peer_finished && s.retried
  · simp only [Bool.and_eq_true] at h1
    rw [h1.2] at hnr
    exact Bool.noConfusion hnr
  · rw [if_neg h1] at hset ⊢
    by_cases h2 : s.peer_finished = true
    · rw [if_pos h2]
      exact ⟨h2, rfl, rfl⟩
    · rw [if_neg h2] at hset
      rw [reader_advance_retried s] at hset
      rw [hset] at hnr
      exact Bool.noConfusion hnr

/-- A boolean flag of the reader state that is `false` initially and `true`
after `k` calls flips at some earlier call. -/
theorem reader_flip (P : ReaderState → Bool) :
    ∀ (k : Nat) (s0 : ReaderState), P s0 = false → P (reader_run s0 k) = true →
      ∃ i < k, P (reader_run s0 i) = false ∧ P (reader_run s0 (i + 1)) = true := by
  intro k
  induction k with
  | zero =>
    intro s0 h0 hk
    rw [reader_run] at hk
    rw [h0] at hk
    exact Bool.noConfusion hk
  | succ k ih =>
    intro s0 h0 hk
    by_cases h1 : P (reader_next s0).1 = true
    · exact ⟨0, Nat.succ_pos _, h0, h1⟩
    · rw [Bool.not_eq_true] at h1
      obtain ⟨i, hik, hflip⟩ := ih (reader_next s0).1 h1 hk
      exact ⟨i + 1, Nat.succ_lt_succ hik, hflip⟩

/-- **C5.**  If the `k`-th call to `EventReader::next` sets `is_finished`,
then some earlier call `i` observed EOF on the underlying reader (flipping
`peer_finished`), and some strictly later call `j` (still before `k`) — a
post-EOF call — returned `Ok(None)` without setting `is_finished`; moreover
the first call that enters with the EOF flag observed returns `Ok(None)`,
sets `retried` and leaves `is_finished` untouched. -/
theorem reader_is_finished_late (s0 : ReaderState) (k : Nat)
    (hp : s0.peer_finished = false) (hr : s0.retried = false)
    (hfin : (reader_next (reader_run s0 k)).2.1 = true) :
    (∃ i j, i < j ∧ j < k ∧
      (reader_run s0 i).peer_finished = false ∧
      (reader_run s0 (i + 1)).peer_finished = true ∧
      (reader_run s0 j).peer_finished = true ∧
      (reader_next (reader_run s0 j)).2.2 = none ∧
      (reader_next (reader_run s0 j)).2.1 = false) ∧
    (∀ s : ReaderState, s.peer_finished = true → s.retried = false →
      reader_next s = ({ s with retried := true }, false, none)) := by
  constructor
  · rw [reader_next_finished_iff] at hfin
    simp only [Bool.and_eq_true] at hfin
    obtain ⟨j, hjk, hjflip⟩ := reader_flip (fun s => s.retried) k s0 hr hfin.2
    have hjflip2 : (reader_next (reader_run s0 j)).1.retried = true := by
      rw [← reader_run_succ j s0]
      exact hjflip.2
    obtain ⟨hpj, hnone, hnofin⟩ := reader_next_retried_flip _ hjflip.1 hjflip2
    obtain ⟨i, hij, hiflip⟩ := reader_flip (fun s => s.peer_finished) j s0 hp hpj
    exact ⟨i, j, hij, hjk, hiflip.1, hiflip.2, hpj, hnone, hnofin⟩
  · intro s hpf hnr
    unfold reader_next
    rw [if_neg (by simp [hnr]), if_pos hpf]

/-- **C5, witness.**  An empty stream: call 0 observes EOF, call 1 returns
`Ok(None)` setting `retried`, call 2 sets `is_finished`. -/
theorem reader_is_finished_late_witness :
    (∃ i j, i < j ∧ j < 2 ∧
      (reader_run ⟨[], [none], false, false⟩ i).peer_finished = false ∧
      (reader_run ⟨[], [none], false, false⟩ (i + 1)).peer_finished = true ∧
      (reader_run ⟨[], [none], false, false⟩ j).peer_finished = true ∧
      (reader_next (reader_run ⟨[], [none], false, false⟩ j)).2.2 = none ∧
      (reader_next (reader_run ⟨[], [none], false, false⟩ j)).2.1 = false) ∧
    (∀ s : ReaderState, s.peer_finished = true → s.retried = false →
      reader_next s = ({ s with retried := true }, false, none)) :=
  reader_is_finished_late ⟨[], [none], false, false⟩ 2 (by rfl) (by rfl) (by rfl)

/-! ## The replay driver's shutdown and drain logic
(`replay_with_shutdown_into_core`)

`Duration` timestamps are totally ordered, so the driver's
`MutableAntichain` is a multiset of times whose frontier is its minimum. -/

/-- The capability-release loop: `while !antichain.is_empty()`, emit a
`(time, -1)` update for each frontier element and apply the updates.  Fuel
is the initial multiset size. -/
def drain_go : Nat → List Time → List (Time × Int)
  | 0, _ => []
  | fuel + 1, ac =>
    match ac.min? with
    | none => []
    | some t => (t, -1) :: drain_go fuel (ac.erase t)

def drain_antichain (ac : List Time) : List (Time × Int) :=
  drain_go ac.length ac

/-- The post-loop decision of one activation of
`replay_with_shutdown_into_core`: either flush and request reactivation
after `reactivation_delay`, or drain the antichain and terminate.  Returns
the emitted progress updates, the reactivation request, and the remaining
antichain. -/
def replay_finish (is_running all_streams_finished : Bool)
    (reactivation_delay : Nat) (antichain : List Time) :
    List (Time × Int) × Option Nat × List Time :=
  if is_running && !all_streams_finished then
    ([], some reactivation_delay, antichain)
  else
    (drain_antichain antichain, none, [])

theorem drain_go_spec :
    ∀ (fuel : Nat) (ac : List Time), ac.length ≤ fuel →
      ((drain_go fuel ac).map Prod.fst).Perm ac ∧
        ∀ u ∈ drain_go fuel ac, u.2 = -1 := by
  intro fuel
  induction fuel with
  | zero =>
    intro ac hlen
    rw [Nat.le_zero] at hlen
    rw [List.length_eq_zero] at hlen
    subst hlen
    exact ⟨List.Perm.refl _, by simp [drain_go]⟩
  | succ fuel ih =>
    intro ac hlen
    rw [drain_go]
    cases hmin : ac.min? with
    | none =>
      rw [List.min?_eq_none_iff] at hmin
      subst hmin
      exact ⟨List.Perm.refl _, by simp⟩
    | some t =>
      have ht : t ∈ ac := List.min?_mem (fun a b => min_choice a b) hmin
      have herase : (ac.erase t).length ≤ fuel := by
        rw [List.length_erase_of_mem ht]
        omega
      obtain ⟨ihperm, ihneg⟩ := ih (ac.erase t) herase
      dsimp only
      constructor
      · rw [List.map_cons]
        exact (ihperm.cons t).trans (List.perm_cons_erase ht).symm
      · intro u hu
        rcases List.mem_cons.1 hu with rfl | hu'
        · rfl
        · exact ihneg u hu'

/-- **C7.**  When shutdown is requested or every input stream has finished,
the activation emits one `-1` progress update per element of the tracked
antichain (their times are exactly the antichain's contents), leaves it
empty, and requests no reactivation; otherwise it emits no progress
retractions, requests reactivation after the configured delay, and keeps the
antichain. -/
theorem replay_finish_shutdown_drains (r f : Bool) (delay : Nat) (ac : List Time) :
    (¬ (r = true ∧ f = false) →
      (replay_finish r f delay ac).2.1 = none ∧
      (replay_finish r f delay ac).2.2 = [] ∧
      ((replay_finish r f delay ac).1.map Prod.fst).Perm ac ∧
      ∀ u ∈ (replay_finish r f delay ac).1, u.2 = -1) ∧
    (r = true ∧ f = false →
      replay_finish r f delay ac = ([], some delay, ac)) := by
  constructor
  · intro hnot
    have hcond : (r && !f) = false := by
      cases r <;> cases f <;> simp_all
    unfold replay_finish
    rw [hcond]
    obtain ⟨hperm, hneg⟩ := drain_go_spec ac.length ac (Nat.le_refl _)
    exact ⟨rfl, rfl, hperm, hneg⟩
  · rintro ⟨rfl, rfl⟩
    rfl

/-- **C7, witness.**  Shutdown with antichain `[5, 3, 5]` retracts each
element once and terminates; a running activation with unfinished streams
keeps its antichain and asks to be reactivated after the delay. -/
theorem replay_finish_shutdown_drains_witness :
    ((replay_finish false true 10 [5, 3, 5]).2.1 = none ∧
      (replay_finish false true 10 [5, 3, 5]).2.2 = [] ∧
      ((replay_finish false true 10 [5, 3, 5]).1.map Prod.fst).Perm [5, 3, 5] ∧
      ∀ u ∈ (replay_finish false true 10 [5, 3, 5]).1, u.2 = -1) ∧
    replay_finish true false 10 [7] = ([], some 10, [7]) :=
  ⟨(replay_finish_shutdown_drains false true 10 [5, 3, 5]).1 (by simp),
    (replay_finish_shutdown_drains true false 10 [7]).2 (by exact ⟨rfl, rfl⟩)⟩

/-! ## `dataflow_stats` (`mod.rs`)

The arranged inputs are modelled as lists of key/value records:
`dataflow_ids` and `subgraph_ids` as lists of `(worker, operator)` keys,
`addr_lookup` (operator ids to addresses) and `channel_scopes` (channel ids
to scope addresses) as keyed lists. -/

/-- `DataflowStats` from `src/ui/mod.rs` (the shape consumed here). -/
structure DataflowStats where
  id : OperatorId
  addr : OperatorAddr
  worker : WorkerId
  operators : Nat
  subgraphs : Nat
  channels : Nat
  lifespan : Time × Time
  deriving DecidableEq, Repr

/-- Differential's `count_total`: each key with its net multiplicity. -/
def count_total {κ : Type} [DecidableEq κ] (xs : List κ) : List (κ × Nat) :=
  xs.dedup.map fun k => (k, xs.countP fun x => decide (x = k))

/-- The `subgraph_addrs` join of `dataflow_stats`: subgraph ids joined
against the address lookup, keyed by `(worker, addr)`. -/
def subgraph_addrs (subgraph_ids : List (WorkerId × OperatorId))
    (addr_lookup : List ((WorkerId × OperatorId) × OperatorAddr)) :
    List ((WorkerId × OperatorAddr) × OperatorId) :=
  subgraph_ids.flatMap fun k =>
    addr_lookup.filterMap fun e =>
      if e.1 = k then some ((k.1, e.2), k.2) else none

/-- The `operator_parents` / `channel_parents` `flat_map_ref` of
`dataflow_stats`: each keyed address contributes one record per *proper*
nonempty prefix (`(1..addr.len()).map(|i| ((worker, addr[..i]), id))`). -/
def addr_parents (lookup : List ((WorkerId × Nat) × OperatorAddr)) :
    List ((WorkerId × OperatorAddr) × Nat) :=
  lookup.flatMap fun e =>
    (List.range e.2.length).filterMap fun i =>
      if 1 ≤ i then some ((e.1.1, e.2.take i), e.1.2) else none

/-- `subgraph_children`: subgraphs joined against operator parents on
`(worker, addr)`, emitting `((worker, operator_id), subgraph_id)`. -/
def subgraph_children (subgraph_ids : List (WorkerId × OperatorId))
    (addr_lookup : List ((WorkerId × OperatorId) × OperatorAddr)) :
    List ((WorkerId × OperatorId) × OperatorId) :=
  (subgraph_addrs subgraph_ids addr_lookup).flatMap fun s =>
    (addr_parents addr_lookup).filterMap fun p =>
      if p.1 = s.1 then some ((s.1.1, p.2), s.2) else none

/-- `subgraph_operators`: the number of operators underneath each
subgraph. -/
def subgraph_operators (subgraph_ids : List (WorkerId × OperatorId))
    (addr_lookup : List ((WorkerId × OperatorId) × OperatorAddr)) :
    List ((WorkerId × OperatorId) × Nat) :=
  count_total ((subgraph_children subgraph_ids addr_lookup).map fun c => (c.1.1, c.2))

/-- `subgraph_subgraphs`: the number of subgraphs underneath each subgraph
(children semijoined against the subgraph ids before counting). -/
def subgraph_subgraphs (subgraph_ids : List (WorkerId × OperatorId))
    (addr_lookup : List ((WorkerId × OperatorId) × OperatorAddr)) :
    List ((WorkerId × OperatorId) × Nat) :=
  count_total
    (((subgraph_children subgraph_ids addr_lookup).filter fun c =>
      subgraph_ids.contains c.1).map fun c => (c.1.1, c.2))

/-- `subgraph_channels`: channels whose scope address lies strictly under
each subgraph, counted per `(worker, subgraph_id)`. -/
def subgraph_channels (subgraph_ids : List (WorkerId × OperatorId))
    (addr_lookup : List ((WorkerId × OperatorId) × OperatorAddr))
    (channel_scopes : List ((WorkerId × ChannelId) × OperatorAddr)) :
    List ((WorkerId × OperatorId) × Nat) :=
  count_total
    ((subgraph_addrs subgraph_ids addr_lookup).flatMap fun s =>
      (addr_parents channel_scopes).filterMap fun p =>
        if p.1 = s.1 then some (s.1.1, s.2) else none)

/-- `dataflows`: the address lookup semijoined against the dataflow ids. -/
def dataflows (dataflow_ids : List (WorkerId × OperatorId))
    (addr_lookup : List ((WorkerId × OperatorId) × OperatorAddr)) :
    List ((WorkerId × OperatorId) × OperatorAddr) :=
  addr_lookup.filter fun e => dataflow_ids.contains e.1

/-- `dataflow_stats` of `mod.rs`: the final chain of equijoins on
`(worker, id)` producing one `DataflowStats` record per join match. -/
def dataflow_stats (operator_lifespans : List ((WorkerId × OperatorId) × (Time × Time)))
    (dataflow_ids subgraph_ids : List (WorkerId × OperatorId))
    (addr_lookup : List ((WorkerId × OperatorId) × OperatorAddr))
    (channel_scopes : List ((WorkerId × ChannelId) × OperatorAddr)) :
    List DataflowStats :=
  (dataflows dataflow_ids addr_lookup).flatMap fun d =>
    (operator_lifespans.filter fun l => l.1 = d.1).flatMap fun l =>
      ((subgraph_operators subgraph_ids addr_lookup).filter
          fun x => x.1 = d.1).flatMap fun ops =>
        ((subgraph_subgraphs subgraph_ids addr_lookup).filter
            fun x => x.1 = d.1).flatMap fun sgs =>
          ((subgraph_channels subgraph_ids addr_lookup channel_scopes).filter
              fun x => x.1 = d.1).map fun chans =>
            { id := d.1.2
              addr := d.2
              worker := d.1.1
              operators := ops.2
              subgraphs := sgs.2
              channels := chans.2
              lifespan := l.2 }

/-- Does `a` strictly extend `base`?  (`base` is a proper prefix of `a`.) -/
def strictly_extends (base a : OperatorAddr) : Bool :=
  (a.take base.length == base) && decide (base.length < a.length)

theorem countP_flatMap_sum {α β : Type} (g : α → List β) (p : β → Bool) :
    ∀ l : List α, (l.flatMap g).countP p = (l.map fun a => (g a).countP p).sum := by
  intro l
  induction l with
  | nil => rfl
  | cons a l ih =>
    rw [List.flatMap_cons, List.countP_append, List.map_cons, List.sum_cons, ih]

theorem countP_filterMap_ite {α β : Type} (p : α → Prop) [DecidablePred p]
    (f : α → β) (P : β → Bool) :
    ∀ l : List α,
      (l.filterMap fun a => if p a then some (f a) else none).countP P =
        l.countP fun a => decide (p a) && P (f a) := by
  intro l
  induction l with
  | nil => rfl
  | cons a l ih =>
    rw [List.filterMap_cons]
    by_cases h : p a
    · rw [if_pos h, List.countP_cons, List.countP_cons, ih]
      simp [h]
    · rw [if_neg h, List.countP_cons, ih]
      simp [h]

theorem sum_map_filterMap_ite {α β : Type} (p : α → Prop) [DecidablePred p]
    (f : α → β) (F : β → Nat) :
    ∀ l : List α,
      ((l.filterMap fun a => if p a then some (f a) else none).map F).sum =
        (l.map fun a => if p a then F (f a) else 0).sum := by
  intro l
  induction l with
  | nil => rfl
  | cons a l ih =>
    rw [List.filterMap_cons]
    by_cases h : p a
    · rw [if_pos h, List.map_cons, List.sum_cons, ih, List.map_cons, List.sum_cons,
        if_pos h]
    · rw [if_neg h, ih, List.map_cons, List.sum_cons, if_neg h, Nat.zero_add]

theorem sum_map_ite_one {α : Type} (p : α → Bool) :
    ∀ l : List α,
      (l.map fun e => if p e then 1 else 0).sum = l.countP p := by
  intro l
  induction l with
  | nil => rfl
  | cons a l ih =>
    rw [List.map_cons, List.sum_cons, ih, List.countP_cons]
    by_cases h : p a = true
    · simp [h, Nat.add_comm]
    · simp [h]

/-- Summing a function that vanishes away from a key present exactly once.  -/
theorem sum_map_single {α κ : Type} [DecidableEq κ] (key : α → κ)
    (f : α → Nat) (k₀ : κ) (e₀ : α) :
    ∀ l : List α, e₀ ∈ l → key e₀ = k₀ → (l.map key).Nodup →
      (∀ e ∈ l, key e ≠ k₀ → f e = 0) →
      (l.map f).sum = f e₀ := by
  intro l
  induction l with
  | nil => intro h; exact absurd h (List.not_mem_nil e₀)
  | cons a l ih =>
    intro hmem hkey hnodup hzero
    rw [List.map_cons] at hnodup
    rw [List.map_cons, List.sum_cons]
    rcases List.mem_cons.1 hmem with rfl | hmem'
    · have hz : (l.map f).sum = 0 := by
        apply List.sum_eq_zero
        intro x hx
        obtain ⟨e, he, rfl⟩ := List.mem_map.1 hx
        refine hzero e (List.mem_cons_of_mem _ he) ?_
        intro hk
        exact (List.nodup_cons.1 hnodup).1 (hkey ▸ hk ▸ List.mem_map_of_mem key he)
      rw [hz]
      exact Nat.add_zero _
    · have hne : key a ≠ k₀ := by
        intro hk
        exact (List.nodup_cons.1 hnodup).1
          (hk.trans hkey.symm ▸ List.mem_map_of_mem key hmem')
      rw [hzero a (List.mem_cons_self ..) hne, Nat.zero_add]
      exact ih hmem' hkey (List.nodup_cons.1 hnodup).2
        fun e he => hzero e (List.mem_cons_of_mem _ he)

/-- Summing over a `flatMap` is summing the per-element sums. -/
theorem sum_map_flatMap {α β : Type} (g : α → List β) (F : β → Nat) :
    ∀ l : List α, ((l.flatMap g).map F).sum = (l.map fun a => ((g a).map F).sum).sum := by
  intro l
  induction l with
  | nil => rfl
  | cons a l ih =>
    rw [List.flatMap_cons, List.map_append, List.sum_append, ih, List.map_cons,
      List.sum_cons]

theorem count_total_mem {κ : Type} [DecidableEq κ] {xs : List κ} {k : κ} {n : Nat}
    (h : (k, n) ∈ count_total xs) :
    k ∈ xs ∧ n = xs.countP fun x => decide (x = k) := by
  unfold count_total at h
  obtain ⟨k', hk', heq⟩ := List.mem_map.1 h
  obtain ⟨h1, h2⟩ := Prod.mk.injEq .. ▸ heq
  subst h1
  exact ⟨List.mem_dedup.1 hk', h2.symm⟩

theorem countP_range_eq (m : Nat) :
    ∀ n : Nat, (List.range n).countP (fun i => i == m) = if m < n then 1 else 0 := by
  intro n
  induction n with
  | zero => rfl
  | succ n ih =>
    rw [List.range_succ, List.countP_append, ih, List.countP_cons, List.countP_nil]
    by_cases h2 : m = n
    · subst h2
      rw [if_neg (Nat.lt_irrefl m), if_pos (Nat.lt_succ_self m)]
      simp
    · have hne : ¬ (n == m) = true := by
        simp only [beq_iff_eq]
        exact fun h => h2 h.symm
      rw [if_neg hne]
      by_cases h1 : m < n
      · rw [if_pos h1, if_pos (Nat.lt_succ_of_lt h1)]
      · rw [if_neg h1, if_neg (by omega : ¬ m < n + 1)]

theorem countP_range_take (l base : List Nat) :
    (List.range l.length).countP
        (fun i => decide (1 ≤ i) && decide (l.take i = base)) =
      if 1 ≤ base.length ∧ base.length < l.length ∧ l.take base.length = base
      then 1 else 0 := by
  by_cases hc : 1 ≤ base.length ∧ base.length < l.length ∧ l.take base.length = base
  · rw [if_pos hc]
    obtain ⟨h1, h2, h3⟩ := hc
    have hcong : ∀ i ∈ List.range l.length,
        (decide (1 ≤ i) && decide (l.take i = base)) = (i == base.length) := by
      intro i hi
      rw [List.mem_range] at hi
      by_cases he : i = base.length
      · subst he
        simp [h1, h3]
      · have : l.take i ≠ base := by
          intro htake
          apply he
          have := congrArg List.length htake
          rw [List.length_take] at this
          omega
        simp [this, he]
    rw [List.countP_congr fun x hx => by rw [hcong x hx], countP_range_eq, if_pos h2]
  · rw [if_neg hc]
    rw [List.countP_eq_zero]
    intro i hi
    rw [List.mem_range] at hi
    simp only [Bool.and_eq_true, decide_eq_true_eq, not_and]
    intro h1i htake
    apply hc
    have hlen := congrArg List.length htake
    rw [List.length_take] at hlen
    have hieq : i = base.length := by omega
    subst hieq
    exact ⟨h1i, hi, htake⟩

/-- Counting parent records with a fixed `(worker, base)` key (and any side
condition `q` on the child id) is counting the keyed addresses that strictly
extend `base`. -/
theorem addr_parents_countP (w : WorkerId) (base : OperatorAddr) (q : Nat → Bool)
    (hbase : base ≠ []) (lookup : List ((WorkerId × Nat) × OperatorAddr)) :
    (addr_parents lookup).countP (fun p => decide (p.1 = (w, base)) && q p.2) =
      lookup.countP fun e =>
        decide (e.1.1 = w) && strictly_extends base e.2 && q e.1.2 := by
  unfold addr_parents
  rw [countP_flatMap_sum]
  have hpoint : ∀ e ∈ lookup,
      ((List.range e.2.length).filterMap fun i =>
          if 1 ≤ i then some ((e.1.1, e.2.take i), e.1.2) else none).countP
        (fun p => decide (p.1 = (w, base)) && q p.2) =
      if (decide (e.1.1 = w) && strictly_extends base e.2 && q e.1.2) = true
      then 1 else 0 := by
    intro e _
    rw [countP_filterMap_ite]
    by_cases hw : e.1.1 = w
    · by_cases hq : q e.1.2 = true
      · have hcong : ∀ i ∈ List.range e.2.length,
            (decide (1 ≤ i) &&
              (decide (((e.1.1, e.2.take i), e.1.2).1 = (w, base)) &&
                q ((e.1.1, e.2.take i), e.1.2).2)) =
            (decide (1 ≤ i) && decide (e.2.take i = base)) := by
          intro i _
          simp [hw, hq, Prod.ext_iff]
        rw [List.countP_congr fun x hx => by rw [hcong x hx], countP_range_take]
        have h1 : 1 ≤ base.length := by
          cases base with
          | nil => exact absurd rfl hbase
          | cons b bs => simp
        by_cases hext : (strictly_extends base e.2) = true
        · unfold strictly_extends at hext
          simp only [Bool.and_eq_true, beq_iff_eq, decide_eq_true_eq] at hext
          rw [if_pos ⟨h1, hext.2, hext.1⟩]
          have : (decide (e.1.1 = w) && strictly_extends base e.2 && q e.1.2) = true := by
            unfold strictly_extends
            simp [hw, hq, hext.1, hext.2]
          rw [if_pos this]
        · unfold strictly_extends at hext
          simp only [Bool.and_eq_true, beq_iff_eq, decide_eq_true_eq, not_and] at hext
          have hno : ¬ (1 ≤ base.length ∧ base.length < e.2.length ∧
              e.2.take base.length = base) := by
            intro ⟨_, hb2, hb3⟩
            exact hext hb3 hb2
          rw [if_neg hno]
          have : ¬ (decide (e.1.1 = w) && strictly_extends base e.2 && q e.1.2) = true := by
            unfold strictly_extends
            simp only [Bool.and_eq_true, beq_iff_eq, decide_eq_true_eq]
            rintro ⟨⟨_, htk, hlt⟩, _⟩
            exact hext htk hlt
          rw [if_neg this]
      · have hz : ∀ i ∈ List.range e.2.length,
            ¬ (decide (1 ≤ i) &&
              (decide (((e.1.1, e.2.take i), e.1.2).1 = (w, base)) &&
                q ((e.1.1, e.2.take i), e.1.2).2)) = true := by
          intro i _
          simp [hq]
        rw [List.countP_eq_zero.2 hz]
        have : ¬ (decide (e.1.1 = w) && strictly_extends base e.2 && q e.1.2) = true := by
          simp [hq]
        rw [if_neg this]
    · have hz : ∀ i ∈ List.range e.2.length,
          ¬ (decide (1 ≤ i) &&
            (decide (((e.1.1, e.2.take i), e.1.2).1 = (w, base)) &&
              q ((e.1.1, e.2.take i), e.1.2).2)) = true := by
        intro i _
        simp [Prod.ext_iff, hw]
      rw [List.countP_eq_zero.2 hz]
      have : ¬ (decide (e.1.1 = w) && strictly_extends base e.2 && q e.1.2) = true := by
        simp [hw]
      rw [if_neg this]
  rw [List.map_congr_left hpoint]
  exact sum_map_ite_one _ lookup

/-- Summing any per-entry count over `subgraph_addrs` that vanishes away
from the subgraph `(w, sid)` picks out exactly the contribution of the
unique entry `((w, addr), sid)`. -/
theorem sum_over_subgraph_addrs (subs : List (WorkerId × OperatorId))
    (addrs : List ((WorkerId × OperatorId) × OperatorAddr)) (w sid : Nat)
    (addr : OperatorAddr) (F : (WorkerId × OperatorAddr) × OperatorId → Nat)
    (hS : subs.Nodup) (hA : (addrs.map fun e => e.1).Nodup)
    (hmemS : (w, sid) ∈ subs) (hmemA : ((w, sid), addr) ∈ addrs)
    (hzero : ∀ s, s.1.1 ≠ w ∨ s.2 ≠ sid → F s = 0) :
    ((subgraph_addrs subs addrs).map F).sum = F ((w, addr), sid) := by
  unfold subgraph_addrs
  rw [sum_map_flatMap]
  have hinner : ∀ k ∈ subs,
      (((addrs.filterMap fun e =>
          if e.1 = k then some ((k.1, e.2), k.2) else none).map F)).sum =
        (addrs.map fun e => if e.1 = k then F ((k.1, e.2), k.2) else 0).sum := by
    intro k _
    exact sum_map_filterMap_ite _ _ _ addrs
  rw [List.map_congr_left hinner]
  have houter : (subs.map fun k =>
      (addrs.map fun e => if e.1 = k then F ((k.1, e.2), k.2) else 0).sum).sum =
      (addrs.map fun e =>
        if e.1 = (w, sid) then F (((w, sid).1, e.2), (w, sid).2) else 0).sum := by
    refine sum_map_single (fun k => k) _ (w, sid) (w, sid) subs hmemS rfl
      (by simpa using hS) ?_
    intro k _ hk
    apply List.sum_eq_zero
    intro x hx
    obtain ⟨e, _, rfl⟩ := List.mem_map.1 hx
    by_cases he : e.1 = k
    · rw [if_pos he]
      apply hzero
      by_cases h1 : k.1 = w
      · right
        intro h2
        exact hk (by rw [← h1, ← h2])
      · left
        exact h1
    · rw [if_neg he]
  rw [houter]
  have hlast : (addrs.map fun e =>
      if e.1 = (w, sid) then F (((w, sid).1, e.2), (w, sid).2) else 0).sum =
      (if ((w, sid), addr).1 = (w, sid)
        then F (((w, sid).1, ((w, sid), addr).2), (w, sid).2) else 0) := by
    refine sum_map_single (fun e => e.1) _ (w, sid) ((w, sid), addr) addrs hmemA rfl hA ?_
    intro e _ he
    rw [if_neg he]
  rw [hlast, if_pos rfl]

/-- Counting the children of subgraph `(w, sid)` (with any side condition
`q` on the child operator id) is counting the operators whose address
strictly extends the subgraph's address. -/
theorem subgraph_children_countP (subs : List (WorkerId × OperatorId))
    (addrs : List ((WorkerId × OperatorId) × OperatorAddr))
    (w sid : Nat) (addr : OperatorAddr) (q : Nat → Bool)
    (hS : subs.Nodup) (hA : (addrs.map fun e => e.1).Nodup)
    (hmemS : (w, sid) ∈ subs) (hmemA : ((w, sid), addr) ∈ addrs)
    (hbase : addr ≠ []) :
    (subgraph_children subs addrs).countP
        (fun c => decide (c.1.1 = w ∧ c.2 = sid) && q c.1.2) =
      addrs.countP fun e => decide (e.1.1 = w) && strictly_extends addr e.2 && q e.1.2 := by
  unfold subgraph_children
  rw [countP_flatMap_sum]
  have hpoint : ∀ s ∈ subgraph_addrs subs addrs,
      ((addr_parents addrs).filterMap fun p =>
          if p.1 = s.1 then some ((s.1.1, p.2), s.2) else none).countP
        (fun c => decide (c.1.1 = w ∧ c.2 = sid) && q c.1.2) =
      (fun s : (WorkerId × OperatorAddr) × OperatorId =>
        if s.1.1 = w ∧ s.2 = sid
        then (addr_parents addrs).countP fun p => decide (p.1 = s.1) && q p.2
        else 0) s := by
    intro s _
    rw [countP_filterMap_ite]
    show _ = if s.1.1 = w ∧ s.2 = sid
      then (addr_parents addrs).countP fun p => decide (p.1 = s.1) && q p.2
      else 0
    by_cases hs : s.1.1 = w ∧ s.2 = sid
    · rw [if_pos hs]
      refine List.countP_congr ?_
      intro p _
      simp [hs.1, hs.2]
    · rw [if_neg hs]
      rw [List.countP_eq_zero]
      intro p _
      simp only [Bool.and_eq_true, decide_eq_true_eq]
      rintro ⟨_, ⟨h1, h2⟩, _⟩
      exact hs ⟨h1, h2⟩
  rw [List.map_congr_left hpoint]
  rw [sum_over_subgraph_addrs subs addrs w sid addr _ hS hA hmemS hmemA
    (by
      intro s hor
      show (if s.1.1 = w ∧ s.2 = sid
        then (addr_parents addrs).countP fun p => decide (p.1 = s.1) && q p.2
        else 0) = 0
      rw [if_neg]
      rintro ⟨h1, h2⟩
      rcases hor with h | h
      · exact h h1
      · exact h h2)]
  show (if w = w ∧ sid = sid
    then (addr_parents addrs).countP fun p => decide (p.1 = (w, addr)) && q p.2
    else 0) = _
  rw [if_pos ⟨rfl, rfl⟩]
  exact addr_parents_countP w addr q hbase addrs

/-- The analogous count for channels under subgraph `(w, sid)`. -/
theorem subgraph_channels_countP (subs : List (WorkerId × OperatorId))
    (addrs : List ((WorkerId × OperatorId) × OperatorAddr))
    (chans : List ((WorkerId × ChannelId) × OperatorAddr))
    (w sid : Nat) (addr : OperatorAddr)
    (hS : subs.Nodup) (hA : (addrs.map fun e => e.1).Nodup)
    (hmemS : (w, sid) ∈ subs) (hmemA : ((w, sid), addr) ∈ addrs)
    (hbase : addr ≠ []) :
    ((subgraph_addrs subs addrs).flatMap fun s =>
        (addr_parents chans).filterMap fun p =>
          if p.1 = s.1 then some (s.1.1, s.2) else none).countP
        (fun x => decide (x = ((w, sid) : WorkerId × OperatorId))) =
      chans.countP fun e => decide (e.1.1 = w) && strictly_extends addr e.2 := by
  rw [countP_flatMap_sum]
  have hpoint : ∀ s ∈ subgraph_addrs subs addrs,
      ((addr_parents chans).filterMap fun p =>
          if p.1 = s.1 then some (s.1.1, s.2) else none).countP
        (fun x => decide (x = ((w, sid) : WorkerId × OperatorId))) =
      (fun s : (WorkerId × OperatorAddr) × OperatorId =>
        if s.1.1 = w ∧ s.2 = sid
        then (addr_parents chans).countP fun p =>
          decide (p.1 = s.1) && (fun _ => true) p.2
        else 0) s := by
    intro s _
    rw [countP_filterMap_ite]
    show _ = if s.1.1 = w ∧ s.2 = sid
      then (addr_parents chans).countP fun p => decide (p.1 = s.1) && (fun _ => true) p.2
      else 0
    by_cases hs : s.1.1 = w ∧ s.2 = sid
    · rw [if_pos hs]
      refine List.countP_congr ?_
      intro p _
      simp [hs.1, hs.2, Prod.ext_iff]
    · rw [if_neg hs]
      rw [List.countP_eq_zero]
      intro p _
      simp only [Bool.and_eq_true, decide_eq_true_eq, beq_iff_eq, Prod.mk.injEq]
      rintro ⟨_, h1, h2⟩
      exact hs ⟨h1, h2⟩
  rw [List.map_congr_left hpoint]
  rw [sum_over_subgraph_addrs subs addrs w sid addr _ hS hA hmemS hmemA
    (by
      intro s hor
      show (if s.1.1 = w ∧ s.2 = sid
        then (addr_parents chans).countP fun p => decide (p.1 = s.1) && (fun _ => true) p.2
        else 0) = 0
      rw [if_neg]
      rintro ⟨h1, h2⟩
      rcases hor with h | h
      · exact h h1
      · exact h h2)]
  show (if w = w ∧ sid = sid
    then (addr_parents chans).countP fun p => decide (p.1 = (w, addr)) && (fun _ => true) p.2
    else 0) = _
  rw [if_pos ⟨rfl, rfl⟩]
  have := addr_parents_countP w addr (fun _ => true) hbase chans
  rw [this]
  refine List.countP_congr ?_
  intro e _
  simp

theorem subgraph_children_key_mem {subs : List (WorkerId × OperatorId)}
    {addrs : List ((WorkerId × OperatorId) × OperatorAddr)}
    {c : (WorkerId × OperatorId) × OperatorId}
    (hc : c ∈ subgraph_children subs addrs) : (c.1.1, c.2) ∈ subs := by
  unfold subgraph_children subgraph_addrs at hc
  simp only [List.mem_flatMap, List.mem_filterMap] at hc
  obtain ⟨s, ⟨k, hk, e, _, hse⟩, p, _, hcp⟩ := hc
  split at hse
  · cases Option.some.inj hse
    split at hcp
    · cases Option.some.inj hcp
      simpa using hk
    · exact Option.noConfusion hcp
  · exact Option.noConfusion hse

/-- **C9.**  For every emitted `DataflowStats` record: `operators` counts the
operators on that worker whose address strictly extends the dataflow's
address, `subgraphs` counts those of them that are subgraphs, and `channels`
counts the channels on that worker whose scope address strictly extends the
dataflow's address.  (The address index is assumed keyed uniquely per
operator, the subgraph-id set duplicate-free, and operator addresses
non-empty, all of which hold of the collections the analyzer arranges.) -/
theorem dataflow_stats_prefix_law
    (operator_lifespans : List ((WorkerId × OperatorId) × (Time × Time)))
    (dataflow_ids subgraph_ids : List (WorkerId × OperatorId))
    (addr_lookup : List ((WorkerId × OperatorId) × OperatorAddr))
    (channel_scopes : List ((WorkerId × ChannelId) × OperatorAddr))
    (hS : subgraph_ids.Nodup) (hA : (addr_lookup.map fun e => e.1).Nodup)
    (hne : ∀ e ∈ addr_lookup, e.2 ≠ ([] : OperatorAddr))
    (rec : DataflowStats)
    (hrec : rec ∈ dataflow_stats operator_lifespans dataflow_ids subgraph_ids
      addr_lookup channel_scopes) :
    rec.operators = addr_lookup.countP
        (fun e => decide (e.1.1 = rec.worker) && strictly_extends rec.addr e.2) ∧
    rec.subgraphs = addr_lookup.countP
        (fun e => decide (e.1.1 = rec.worker) && strictly_extends rec.addr e.2 &&
          subgraph_ids.contains e.1) ∧
    rec.channels = channel_scopes.countP
        (fun e => decide (e.1.1 = rec.worker) && strictly_extends rec.addr e.2) := by
  unfold dataflow_stats dataflows at hrec
  simp only [List.mem_flatMap, List.mem_filter, List.mem_map, decide_eq_true_eq] at hrec
  obtain ⟨d, ⟨hdA, _⟩, l, ⟨_, _⟩, ops, ⟨hopsMem, hopsKey⟩, sgs, ⟨hsgsMem, hsgsKey⟩,
    chans, ⟨hchansMem, hchansKey⟩, rfl⟩ := hrec
  have hmemA : ((d.1.1, d.1.2), d.2) ∈ addr_lookup := by
    simpa using hdA
  have hbase : d.2 ≠ ([] : OperatorAddr) := hne d hdA
  -- membership of the dataflow key in the subgraph ids, extracted from the
  -- operator-count join
  unfold subgraph_operators at hopsMem
  have hops := count_total_mem (k := ops.1) (n := ops.2) (by rwa [Prod.mk.eta])
  obtain ⟨c0, hc0, hc0key⟩ := List.mem_map.1 hops.1
  have hmemS : (d.1.1, d.1.2) ∈ subgraph_ids := by
    have := subgraph_children_key_mem hc0
    rw [hc0key, hopsKey] at this
    simpa using this
  refine ⟨?_, ?_, ?_⟩
  · -- operators
    dsimp only
    rw [hops.2, hopsKey]
    rw [List.countP_map]
    have hcong : ∀ c ∈ subgraph_children subgraph_ids addr_lookup,
        (((fun x => decide (x = d.1)) ∘ fun c => (c.1.1, c.2)) c = true) ↔
          ((fun c => decide (c.1.1 = d.1.1 ∧ c.2 = d.1.2) &&
            (fun _ => true) c.1.2) c = true) := by
      intro c _
      simp [Prod.ext_iff]
    rw [List.countP_congr hcong]
    rw [subgraph_children_countP subgraph_ids addr_lookup d.1.1 d.1.2 d.2
      (fun _ => true) hS hA hmemS hmemA hbase]
    refine List.countP_congr ?_
    intro e _
    simp
  · -- subgraphs
    dsimp only
    unfold subgraph_subgraphs at hsgsMem
    have hsgs := count_total_mem (k := sgs.1) (n := sgs.2) (by rwa [Prod.mk.eta])
    rw [hsgs.2, hsgsKey]
    rw [List.countP_map, List.countP_filter]
    have hcong : ∀ c ∈ subgraph_children subgraph_ids addr_lookup,
        ((((fun x => decide (x = d.1)) ∘ fun c => (c.1.1, c.2)) c &&
            subgraph_ids.contains c.1) = true) ↔
          ((fun c => decide (c.1.1 = d.1.1 ∧ c.2 = d.1.2) &&
            (fun op => subgraph_ids.contains (d.1.1, op)) c.1.2) c = true) := by
      intro c _
      simp only [Function.comp_apply, Bool.and_eq_true, Prod.ext_iff,
        decide_eq_true_eq]
      constructor
      · rintro ⟨⟨h1, h2⟩, h3⟩
        refine ⟨⟨h1, h2⟩, ?_⟩
        rw [← h1, Prod.mk.eta]
        exact h3
      · rintro ⟨⟨h1, h2⟩, h3⟩
        refine ⟨⟨h1, h2⟩, ?_⟩
        rw [← h1, Prod.mk.eta] at h3
        exact h3
    rw [List.countP_congr hcong]
    rw [subgraph_children_countP subgraph_ids addr_lookup d.1.1 d.1.2 d.2
      (fun op => subgraph_ids.contains (d.1.1, op)) hS hA hmemS hmemA hbase]
    refine List.countP_congr ?_
    intro e _
    simp only [Bool.and_eq_true, decide_eq_true_eq, and_congr_right_iff]
    intro h1
    rw [← h1.1, Prod.mk.eta]
  · -- channels
    dsimp only
    unfold subgraph_channels at hchansMem
    have hchans := count_total_mem (k := chans.1) (n := chans.2) (by rwa [Prod.mk.eta])
    rw [hchans.2, hchansKey]
    have hd1 : d.1 = (d.1.1, d.1.2) := by simp
    rw [hd1]
    exact subgraph_channels_countP subgraph_ids addr_lookup channel_scopes
      d.1.1 d.1.2 d.2 hS hA hmemS hmemA hbase

/-- **C9, witness.**  A one-dataflow graph (dataflow `[0]` with subgraph
`[0, 2]`, leaves `[0, 1]` and `[0, 2, 5]`, and channels scoped at `[0]` and
`[0, 2]`): the emitted record counts 3 operators, 1 subgraph and 1 channel
strictly under `[0]`. -/
theorem dataflow_stats_prefix_law_witness :
    (3 : Nat) =
      ([((0, 100), [0]), ((0, 2), [0, 2]), ((0, 1), [0, 1]), ((0, 5), [0, 2, 5])] :
          List ((WorkerId × OperatorId) × OperatorAddr)).countP
        (fun e => decide (e.1.1 = 0) && strictly_extends [0] e.2) ∧
    (1 : Nat) =
      ([((0, 100), [0]), ((0, 2), [0, 2]), ((0, 1), [0, 1]), ((0, 5), [0, 2, 5])] :
          List ((WorkerId × OperatorId) × OperatorAddr)).countP
        (fun e => decide (e.1.1 = 0) && strictly_extends [0] e.2 &&
          ([(0, 100), (0, 2)] : List (WorkerId × OperatorId)).contains e.1) ∧
    (1 : Nat) =
      ([((0, 9), [0]), ((0, 3), [0, 2])] :
          List ((WorkerId × ChannelId) × OperatorAddr)).countP
        (fun e => decide (e.1.1 = 0) && strictly_extends [0] e.2) :=
  dataflow_stats_prefix_law [((0, 100), (0, 500))] [(0, 100)] [(0, 100), (0, 2)]
    [((0, 100), [0]), ((0, 2), [0, 2]), ((0, 1), [0, 1]), ((0, 5), [0, 2, 5])]
    [((0, 9), [0]), ((0, 3), [0, 2])]
    (by decide) (by decide) (by decide)
    (DataflowStats.mk 100 [0] 0 3 1 1 (0, 500)) (by decide)

end DDShow
